import Mathlib

/-!
Verification of the FoxyProxy configuration generator
(`foxyproxy-generator.js`, class `FoxyProxyGenerator`).

The JavaScript class is embedded shallowly:
* machine-level JS values that matter to the claims are modelled explicitly
  (`Option String` for possibly-null credential fields, `Option Int` for the
  result of `parseInt` where `none` stands for `NaN`);
* the mutable object is a Lean structure threaded through the methods;
* randomness (`crypto.getRandomValues` / `Math.random`) is modelled as two
  ambient streams carried in the state together with a read position, so a
  method that draws randomness returns an updated state;
* fallible methods (JS `throw`) return `Except`.
-/

namespace FireFoxy

/-! ## JS primitives used by the generator -/

/-- The ECMAScript whitespace set used by `String.prototype.trim` and by
`parseInt`'s leading-whitespace skipping: WhiteSpace and LineTerminator
code points. -/
def jsIsWhitespace (c : Char) : Bool :=
  c.toNat = 9 ∨ c.toNat = 10 ∨ c.toNat = 11 ∨ c.toNat = 12 ∨ c.toNat = 13 ∨
  c.toNat = 32 ∨ c.toNat = 0xA0 ∨ c.toNat = 0x1680 ∨
  (0x2000 ≤ c.toNat ∧ c.toNat ≤ 0x200A) ∨
  c.toNat = 0x2028 ∨ c.toNat = 0x2029 ∨ c.toNat = 0x202F ∨
  c.toNat = 0x205F ∨ c.toNat = 0x3000 ∨ c.toNat = 0xFEFF

/-- JS `String.prototype.trim`: strip leading and trailing whitespace. -/
def jsTrim (s : String) : String :=
  String.mk (((s.data.dropWhile jsIsWhitespace).reverse.dropWhile jsIsWhitespace).reverse)

/-- Value of a maximal leading run of decimal digits; `none` when the run is
empty. -/
def leadingNat (l : List Char) : Option Nat :=
  let ds := l.takeWhile Char.isDigit
  if ds.isEmpty then none
  else some (ds.foldl (fun a c => 10 * a + (c.toNat - 48)) 0)

/-- JS `parseInt(s, 10)`: skip leading whitespace, read an optional sign and a
maximal run of decimal digits; `none` models `NaN` (no digits). -/
def parseIntBase10 (s : String) : Option Int :=
  match s.data.dropWhile jsIsWhitespace with
  | '-' :: rest => (leadingNat rest).map (fun n => -(n : Int))
  | '+' :: rest => (leadingNat rest).map (fun n => (n : Int))
  | l => (leadingNat l).map (fun n => (n : Int))

/-- Truthiness of a JS string-or-null value: `null`/`undefined` (`none`) and
the empty string are falsy, every other string is truthy. -/
def strTruthy : Option String → Bool
  | none => false
  | some s => !s.isEmpty

/-- UTF-16 code units contributed by one code point (JS strings are counted
in UTF-16 units, so an astral code point counts as 2). -/
def jsCharUnits (c : Char) : Nat := if c.toNat < 0x10000 then 1 else 2

/-- JS `String.prototype.length`: the number of UTF-16 code units. -/
def jsLength (s : String) : Nat := (s.data.map jsCharUnits).sum

/-- JS `String.prototype.charAt` on a list of characters: the one-character
string at the index, or the empty string when the index is out of range. -/
def charAt (l : List Char) (i : Nat) : String :=
  match l.get? i with
  | some c => String.singleton c
  | none => ""

/-! ## Data model of the generator object -/

/-- The `this.config` object: the four template fields.  `proxyCount` is kept
as the raw value handed to `parseInt` at generation time (JS coerces it to a
string first, so a string models any user-supplied value). -/
structure Config where
  endpoint : String
  port : String
  region : String
  proxyCount : String
  deriving Repr, DecidableEq

/-- The `this.credentials` object.  `none` models `null`/`undefined`; the
constructor and `clearCredentials` store actual empty strings. -/
structure Credentials where
  username : Option String
  password : Option String
  deriving Repr, DecidableEq

/-- The color palette from the constructor (20 entries). -/
def defaultColors : List String :=
  ["#FF5722", "#FF9800", "#FFC107", "#FFEB3B", "#CDDC39",
   "#8BC34A", "#4CAF50", "#009688", "#00BCD4", "#03A9F4",
   "#2196F3", "#3F51B5", "#1E90FF", "#FF69B4", "#FF8C00",
   "#9C27B0", "#E91E63", "#795548", "#607D8B", "#455A64"]

/-- The icon palette from the constructor (20 entries, the tenth is the empty
string). -/
def defaultIcons : List String :=
  ["🌟", "🔮", "🚀", "🌈", "⚡", "🔥", "💎", "🌊", "🔶", "",
   "🚩", "⭐", "🎯", "🎨", "🎪", "🎭", "🎸", "🎹", "🎺", "🎻"]

/-- The generator object: its JS fields plus the ambient randomness sources.
`cryptoAvailable` selects `crypto.getRandomValues` (`rndBytes`, a byte
stream) versus the `Math.random` fallback (`rndFloat`, values in `[0,1)`);
`rndPos` is the read position in the chosen stream. -/
structure FoxyProxyGenerator where
  config : Config
  credentials : Credentials
  colors : List String
  icons : List String
  cryptoAvailable : Bool
  rndBytes : Nat → Nat
  rndFloat : Nat → ℚ
  rndPos : Nat

/-- A partial options object passed to the constructor; `none` for an absent
field (`Object.assign` keeps the default). -/
structure ConfigInput where
  endpoint : Option String := none
  port : Option String := none
  region : Option String := none
  proxyCount : Option String := none

/-- The constructor: merge the options over the defaults, then normalize the
region alias `"USA"` to `"US"` (once, here only); credentials start as empty
strings; palettes are the fixed defaults; the randomness position starts
at 0. -/
def construct (input : ConfigInput) (cryptoAvailable : Bool)
    (rndBytes : Nat → Nat) (rndFloat : Nat → ℚ) : FoxyProxyGenerator :=
  let region0 := input.region.getD "US"
  { config :=
      { endpoint := input.endpoint.getD "na.proxys5.net"
        port := input.port.getD "6200"
        region := if region0 = "USA" then "US" else region0
        proxyCount := input.proxyCount.getD "10" }
    credentials := { username := some "", password := some "" }
    colors := defaultColors
    icons := defaultIcons
    cryptoAvailable := cryptoAvailable
    rndBytes := rndBytes
    rndFloat := rndFloat
    rndPos := 0 }

/-- Direct JS field assignment `gen.config.region = r` after construction
(no re-normalization happens on assignment). -/
def setRegion (g : FoxyProxyGenerator) (r : String) : FoxyProxyGenerator :=
  { g with config := { g.config with region := r } }

/-! ## generateSessionId -/

/-- The 62-character alphabet of `generateSessionId`. -/
def sessionChars : List Char :=
  "abcdefghijklmnopqrstuvwxyzABCDEFGHIJKLMNOPQRSTUVWXYZ0123456789".data

/-- Index of the `i`-th drawn character: on the secure path a `Uint8Array`
byte reduced `mod 62`; on the fallback path `Math.floor(Math.random() * 62)`. -/
def sessionIdx (g : FoxyProxyGenerator) (i : Nat) : Nat :=
  if g.cryptoAvailable then g.rndBytes (g.rndPos + i) % 256 % 62
  else (⌊g.rndFloat (g.rndPos + i) * 62⌋).toNat

/-- `generateSessionId`: concatenate eight `charAt` draws from the alphabet
and advance the randomness position by the eight draws made. -/
def generateSessionId (g : FoxyProxyGenerator) : String × FoxyProxyGenerator :=
  (String.join ((List.range 8).map (fun i => charAt sessionChars (sessionIdx g i))),
   { g with rndPos := g.rndPos + 8 })

/-! ## validateCredentials -/

/-- The three validation failures, by the exact `Error` message thrown. -/
inductive CredError where
  | missing
  | usernameTooShort
  | passwordTooShort
  deriving Repr, DecidableEq

def CredError.message : CredError → String
  | .missing => "Username and password are required"
  | .usernameTooShort => "Username must be at least 3 characters long"
  | .passwordTooShort => "Password must be at least 6 characters long"

/-- `validateCredentials`: missing when either stored field is falsy, then
the two length checks, else `true`. -/
def validateCredentials (g : FoxyProxyGenerator) : Except CredError Bool :=
  if !(strTruthy g.credentials.username) || !(strTruthy g.credentials.password) then
    .error .missing
  else if jsLength (g.credentials.username.getD "") < 3 then
    .error .usernameTooShort
  else if jsLength (g.credentials.password.getD "") < 6 then
    .error .passwordTooShort
  else
    .ok true

/-! ## generateProxyConfig -/

/-- One generated proxy record, with the exact fields the JS object literal
carries.  `port` is the `parseInt` result, `none` modelling `NaN`.  The three
trailing list fields are always created empty. -/
structure ProxyRecord where
  active : Bool
  title : String
  type : String
  hostname : String
  port : Option Int
  username : String
  password : String
  cc : String
  city : String
  color : String
  pac : String
  pacString : String
  proxyDNS : Bool
  includeL : List String
  excludeL : List String
  tabProxy : List String
  deriving Repr, DecidableEq

/-- `generateProxyConfig(index)`: validate, draw a session id, pick color and
icon by `index mod` palette length, build the auth username
`{user}-region-{region}-sessid-{sid}-sessTime-120`, and return the record.
The `dateStr` computed by the JS body is unused there and is omitted.
Palette reads use `getD ""`; constructed generators always index in range. -/
def generateProxyConfig (g : FoxyProxyGenerator) (index : Nat) :
    Except String (ProxyRecord × FoxyProxyGenerator) :=
  match validateCredentials g with
  | .error e => .error e.message
  | .ok _ =>
    let (sessionId, g') := generateSessionId g
    let colorIndex := index % g.colors.length
    let iconIndex := index % g.icons.length
    let authUsername :=
      (g.credentials.username.getD "") ++ "-region-" ++ g.config.region ++
        "-sessid-" ++ sessionId ++ "-sessTime-120"
    .ok
      ({ active := true
         title := toString (index + 1) ++ " " ++ g.icons.getD iconIndex ""
         type := "socks5"
         hostname := g.config.endpoint
         port := parseIntBase10 g.config.port
         username := authUsername
         password := g.credentials.password.getD ""
         cc := ""
         city := ""
         color := g.colors.getD colorIndex ""
         pac := ""
         pacString := ""
         proxyDNS := true
         includeL := []
         excludeL := []
         tabProxy := [] }, g')

/-- The record `generateProxyConfig(index)` returns when validation passes,
as a total function of the pre-state: the session id is the one drawn at the
current randomness position. -/
def mkRecord (g : FoxyProxyGenerator) (index : Nat) : ProxyRecord :=
  { active := true
    title := toString (index + 1) ++ " " ++ g.icons.getD (index % g.icons.length) ""
    type := "socks5"
    hostname := g.config.endpoint
    port := parseIntBase10 g.config.port
    username :=
      (g.credentials.username.getD "") ++ "-region-" ++ g.config.region ++
        "-sessid-" ++ (generateSessionId g).1 ++ "-sessTime-120"
    password := g.credentials.password.getD ""
    cc := ""
    city := ""
    color := g.colors.getD (index % g.colors.length) ""
    pac := ""
    pacString := ""
    proxyDNS := true
    includeL := []
    excludeL := []
    tabProxy := [] }

/-! ## generateFullConfig -/

/-- The `commands` object of the exported document. -/
structure Commands where
  setProxy : String
  setTabProxy : String
  includeHost : String
  excludeHost : String
  deriving Repr, DecidableEq

/-- The full exported document, with every field the JS object literal
carries.  `container` is always created as the empty object. -/
structure FullConfig where
  mode : String
  sync : Bool
  autoBackup : Bool
  passthrough : String
  theme : String
  container : List (String × String)
  commands : Commands
  data : List ProxyRecord
  deriving Repr, DecidableEq

/-- The effective batch size:
`Math.max(1, Math.min(50, parseInt(proxyCount, 10) || 10))`.
`|| 10` substitutes 10 exactly when `parseInt` gave `NaN` or `0`. -/
def effectiveCount (proxyCount : String) : Nat :=
  (max 1 (min 50
    (match parseIntBase10 proxyCount with
     | none => 10
     | some v => if v = 0 then 10 else v))).toNat

/-- The generation loop of `generateFullConfig`: build `n` records starting
at index `i`, threading the state; a builder failure aborts the batch with
the wrapping message. -/
def buildConfigs (g : FoxyProxyGenerator) (i : Nat) :
    Nat → Except String (List ProxyRecord × FoxyProxyGenerator)
  | 0 => .ok ([], g)
  | n + 1 =>
    match generateProxyConfig g i with
    | .ok (r, g') =>
      (buildConfigs g' (i + 1) n).map (fun p => (r :: p.1, p.2))
    | .error e =>
      .error ("Failed to generate proxy configuration " ++ toString (i + 1) ++ ": " ++ e)

/-- The list of records the generation loop produces from a given state:
record `k` is built at index `i + k` with the randomness position advanced
by `8k` draws. -/
def buildList (g : FoxyProxyGenerator) (i : Nat) : Nat → List ProxyRecord
  | 0 => []
  | n + 1 => mkRecord g i :: buildList { g with rndPos := g.rndPos + 8 } (i + 1) n

/-- `generateFullConfig`: validate once up front, clamp the count, run the
loop, and wrap the records in the document with its constant passthrough
fields. -/
def generateFullConfig (g : FoxyProxyGenerator) :
    Except String (FullConfig × FoxyProxyGenerator) :=
  match validateCredentials g with
  | .error e => .error e.message
  | .ok _ =>
    (buildConfigs g 0 (effectiveCount g.config.proxyCount)).map (fun p =>
      ({ mode := g.config.endpoint ++ ":" ++ g.config.port
         sync := false
         autoBackup := false
         passthrough := ""
         theme := ""
         container := []
         commands :=
           { setProxy := "", setTabProxy := "", includeHost := "", excludeHost := "" }
         data := p.1 }, p.2))

/-! ## updateCredentials / clearCredentials / getConfigInfo -/

/-- `updateCredentials(username, password)`: reject when either argument is
falsy, otherwise store the trimmed strings. -/
def updateCredentials (g : FoxyProxyGenerator) (username password : Option String) :
    Except String FoxyProxyGenerator :=
  if !(strTruthy username) || !(strTruthy password) then
    .error "Both username and password are required"
  else
    .ok { g with credentials :=
      { username := some (jsTrim (username.getD ""))
        password := some (jsTrim (password.getD "")) } }

/-- `clearCredentials`: reset both fields to empty strings. -/
def clearCredentials (g : FoxyProxyGenerator) : FoxyProxyGenerator :=
  { g with credentials := { username := some "", password := some "" } }

/-- The summary returned by `getConfigInfo`. -/
structure ConfigInfo where
  endpoint : String
  port : String
  region : String
  proxyCount : String
  hasCredentials : Bool
  deriving Repr, DecidableEq

/-- `getConfigInfo`: the four template fields and the truthiness conjunction
`!!(username && password)`; no credential value is included. -/
def getConfigInfo (g : FoxyProxyGenerator) : ConfigInfo :=
  { endpoint := g.config.endpoint
    port := g.config.port
    region := g.config.region
    proxyCount := g.config.proxyCount
    hasCredentials := strTruthy g.credentials.username && strTruthy g.credentials.password }

/-! ## Concrete states for instantiation -/

/-- A constant byte stream. -/
def zeroBytes : Nat → Nat := fun _ => 0

/-- A constant `Math.random` stream with value `1/2`. -/
def halfRnd : Nat → ℚ := fun _ => (1 : ℚ) / 2

/-- A freshly constructed generator with default options and valid
credentials stored. -/
def gExample : FoxyProxyGenerator :=
  { construct {} true zeroBytes halfRnd with
    credentials := { username := some "alice", password := some "secret1" } }

/-- Like `gExample` but with the fallback randomness path selected. -/
def gExampleFallback : FoxyProxyGenerator :=
  { construct {} false zeroBytes halfRnd with
    credentials := { username := some "alice", password := some "secret1" } }

/-- Like `gExample` but with a different password of the same truthiness. -/
def gOther : FoxyProxyGenerator :=
  { construct {} true zeroBytes halfRnd with
    credentials := { username := some "alice", password := some "hunter2222" } }

/-- Valid credentials and a negative configured profile count. -/
def gNegCount : FoxyProxyGenerator :=
  { construct { proxyCount := some "-5" } true zeroBytes halfRnd with
    credentials := { username := some "alice", password := some "secret1" } }

/-- The document `generateFullConfig` produces from `gExample`. -/
def docExample : FullConfig :=
  { mode := "na.proxys5.net:6200"
    sync := false
    autoBackup := false
    passthrough := ""
    theme := ""
    container := []
    commands := { setProxy := "", setTabProxy := "", includeHost := "", excludeHost := "" }
    data := buildList gExample 0 10 }

/-! ## JSON values (the JS value universe of the exported document)

`JsVal` is the JS value universe relevant to the document: `nan` is the JS
number `NaN` (which `JSON.stringify` renders as `null`); the other
constructors are ordinary JSON data.  `jstr` below is
`JSON.stringify(value, null, 2)` and the parser models `JSON.parse`
(restricted to integer numerals, the only numbers the generator emits).
-/

inductive JsVal where
  | null
  | nan
  | bool (b : Bool)
  | num (n : Int)
  | str (s : List Char)
  | arr (elems : List JsVal)
  | obj (members : List (String × JsVal))

/-- Lower-case hexadecimal digit, as `JSON.stringify` emits in `\u00XX`:
code 48 + n for a decimal digit, code 87 + n for a letter. -/
def hexChar (n : Nat) : Char :=
  if n < 10 then Char.ofNat (48 + n) else Char.ofNat (87 + n)

/-- The escape `JSON.stringify` applies to one character of a string:
quote and backslash escaped, the five short control escapes, `\u00XX` for
the remaining control characters, everything else verbatim. -/
def escapeChar (c : Char) : List Char :=
  if c = '"' then ['\\', '"']
  else if c = '\\' then ['\\', '\\']
  else if c = '\n' then ['\\', 'n']
  else if c = '\r' then ['\\', 'r']
  else if c = '\t' then ['\\', 't']
  else if c.toNat = 8 then ['\\', 'b']
  else if c.toNat = 12 then ['\\', 'f']
  else if c.toNat < 32 then ['\\', 'u', '0', '0', hexChar (c.toNat / 16), hexChar (c.toNat % 16)]
  else [c]

def escapeList (s : List Char) : List Char := (s.map escapeChar).join

/-- A JSON string literal: quote, escaped body, quote. -/
def quoteChars (s : List Char) : List Char := '"' :: (escapeList s ++ ['"'])

/-- Little-endian decimal digits of `n` (empty for 0), fuel-structured so it
evaluates in the kernel. -/
def natDigitsAux : Nat → Nat → List Nat
  | 0, _ => []
  | f + 1, n => if n = 0 then [] else n % 10 :: natDigitsAux f (n / 10)

def digitChar10 (d : Nat) : Char := Char.ofNat (48 + d)

/-- Decimal numeral of a natural number, most significant digit first. -/
def natChars (n : Nat) : List Char :=
  if 0 < n then ((natDigitsAux (n + 1) n).map digitChar10).reverse else ['0']

/-- Decimal numeral of an integer, as `JSON.stringify` prints an integral
JS number. -/
def intChars (n : Int) : List Char :=
  if n < 0 then '-' :: natChars n.natAbs else natChars n.toNat

def indentChars (n : Nat) : List Char := List.replicate (2 * n) ' '

mutual

/-- `JSON.stringify(v, null, 2)` at nesting depth `ind`, as characters:
empty containers print closed; non-empty ones put each item on its own
line indented two spaces deeper; `NaN` prints as `null`. -/
def jstr : Nat → JsVal → List Char
  | _, .null => ['n', 'u', 'l', 'l']
  | _, .nan => ['n', 'u', 'l', 'l']
  | _, .bool true => ['t', 'r', 'u', 'e']
  | _, .bool false => ['f', 'a', 'l', 's', 'e']
  | _, .num n => intChars n
  | _, .str s => quoteChars s
  | _, .arr [] => ['[', ']']
  | ind, .arr (x :: xs) =>
    '[' :: '\n' :: (indentChars (ind + 1) ++ jstr (ind + 1) x ++
      jstrElems (ind + 1) xs ++ '\n' :: (indentChars ind ++ [']']))
  | _, .obj [] => ['\x7b', '\x7d']
  | ind, .obj (kv :: kvs) =>
    '\x7b' :: '\n' :: (indentChars (ind + 1) ++ jstrMember (ind + 1) kv ++
      jstrMembers (ind + 1) kvs ++ '\n' :: (indentChars ind ++ ['\x7d']))

/-- The remaining elements of a non-empty array: `,` newline, indent, item. -/
def jstrElems : Nat → List JsVal → List Char
  | _, [] => []
  | ind, x :: xs => ',' :: '\n' :: (indentChars ind ++ jstr ind x ++ jstrElems ind xs)

/-- One object member: quoted key, colon, space, value. -/
def jstrMember : Nat → String × JsVal → List Char
  | ind, (k, v) => quoteChars k.data ++ ':' :: ' ' :: jstr ind v

/-- The remaining members of a non-empty object. -/
def jstrMembers : Nat → List (String × JsVal) → List Char
  | _, [] => []
  | ind, kv :: kvs => ',' :: '\n' :: (indentChars ind ++ jstrMember ind kv ++ jstrMembers ind kvs)

end

def jsonStringify (v : JsVal) : String := String.mk (jstr 0 v)

/-! ## JSON parser (modelling `JSON.parse` on the texts the printer emits;
numbers are restricted to integer numerals — fraction or exponent syntax is
rejected, which the generator never produces) -/

def skipWs : List Char → List Char
  | [] => []
  | c :: l => if c = ' ' ∨ c = '\n' ∨ c = '\t' ∨ c = '\r' then skipWs l else c :: l

def hexVal (c : Char) : Option Nat :=
  if '0' ≤ c ∧ c ≤ '9' then some (c.toNat - 48)
  else if 'a' ≤ c ∧ c ≤ 'f' then some (c.toNat - 87)
  else if 'A' ≤ c ∧ c ≤ 'F' then some (c.toNat - 55)
  else none

def mapConsStr (c : Char) : Option (List Char × List Char) → Option (List Char × List Char)
  | some (s, r) => some (c :: s, r)
  | none => none

/-- The body of a string literal after the opening quote: plain characters
up to the closing quote, with the JSON escapes decoded (`\uXXXX` only for
valid scalar values; raw control characters rejected). -/
def parseStringBody : List Char → Option (List Char × List Char)
  | [] => none
  | c :: rest =>
    if c = '"' then some ([], rest)
    else if c = '\\' then
      match rest with
      | [] => none
      | e :: r =>
        if e = '"' then mapConsStr '"' (parseStringBody r)
        else if e = '\\' then mapConsStr '\\' (parseStringBody r)
        else if e = '/' then mapConsStr '/' (parseStringBody r)
        else if e = 'n' then mapConsStr '\n' (parseStringBody r)
        else if e = 'r' then mapConsStr '\r' (parseStringBody r)
        else if e = 't' then mapConsStr '\t' (parseStringBody r)
        else if e = 'b' then mapConsStr (Char.ofNat 8) (parseStringBody r)
        else if e = 'f' then mapConsStr (Char.ofNat 12) (parseStringBody r)
        else if e = 'u' then
          match r with
          | h1 :: h2 :: h3 :: h4 :: r2 =>
            match hexVal h1, hexVal h2, hexVal h3, hexVal h4 with
            | some a, some b, some c2, some d =>
              let n := 4096 * a + 256 * b + 16 * c2 + d
              if n.isValidChar then mapConsStr (Char.ofNat n) (parseStringBody r2) else none
            | _, _, _, _ => none
          | _ => none
        else none
    else if c.toNat < 32 then none
    else mapConsStr c (parseStringBody rest)

/-- Maximal run of decimal digits, as digit values, with the remainder. -/
def digitRun : List Char → List Nat × List Char
  | [] => ([], [])
  | c :: rest =>
    if c.isDigit then ((c.toNat - 48) :: (digitRun rest).1, (digitRun rest).2)
    else ([], c :: rest)

def digitsVal (ds : List Nat) : Nat := ds.foldl (fun a d => 10 * a + d) 0

/-- An unsigned integer numeral; fails on an empty digit run and on a
following fraction or exponent marker. -/
def parseNat (l : List Char) : Option (Nat × List Char) :=
  let p := digitRun l
  if p.1.isEmpty then none
  else
    match p.2 with
    | c :: _ => if c = '.' ∨ c = 'e' ∨ c = 'E' then none else some (digitsVal p.1, p.2)
    | [] => some (digitsVal p.1, [])

mutual

/-- One JSON value, recursive descent with explicit fuel. -/
def parseVal : Nat → List Char → Option (JsVal × List Char)
  | 0, _ => none
  | fuel + 1, input =>
    match skipWs input with
    | [] => none
    | c :: rest =>
      if c = '"' then
        match parseStringBody rest with
        | some (s, r) => some (.str s, r)
        | none => none
      else if c = '\x7b' then
        match skipWs rest with
        | [] => parseMembers fuel rest []
        | c2 :: r => if c2 = '\x7d' then some (.obj [], r) else parseMembers fuel rest []
      else if c = '[' then
        match skipWs rest with
        | [] => parseElems fuel rest []
        | c2 :: r => if c2 = ']' then some (.arr [], r) else parseElems fuel rest []
      else if c = 't' then
        match rest with
        | 'r' :: 'u' :: 'e' :: r => some (.bool true, r)
        | _ => none
      else if c = 'f' then
        match rest with
        | 'a' :: 'l' :: 's' :: 'e' :: r => some (.bool false, r)
        | _ => none
      else if c = 'n' then
        match rest with
        | 'u' :: 'l' :: 'l' :: r => some (.null, r)
        | _ => none
      else if c = '-' then
        match parseNat rest with
        | some (m, r) => some (.num (-(m : Int)), r)
        | none => none
      else if c.isDigit then
        match parseNat (c :: rest) with
        | some (m, r) => some (.num (m : Int), r)
        | none => none
      else none

/-- Elements of a non-empty array after `[`. -/
def parseElems : Nat → List Char → List JsVal → Option (JsVal × List Char)
  | 0, _, _ => none
  | fuel + 1, input, acc =>
    match parseVal fuel input with
    | some (v, r) =>
      match skipWs r with
      | ',' :: r2 => parseElems fuel r2 (acc ++ [v])
      | ']' :: r2 => some (.arr (acc ++ [v]), r2)
      | _ => none
    | none => none

/-- Members of a non-empty object after the opening brace. -/
def parseMembers : Nat → List Char → List (String × JsVal) → Option (JsVal × List Char)
  | 0, _, _ => none
  | fuel + 1, input, acc =>
    match skipWs input with
    | '"' :: r =>
      match parseStringBody r with
      | some (k, r2) =>
        match skipWs r2 with
        | ':' :: r3 =>
          match parseVal fuel r3 with
          | some (v, r4) =>
            match skipWs r4 with
            | ',' :: r5 => parseMembers fuel r5 (acc ++ [(String.mk k, v)])
            | '\x7d' :: r5 => some (.obj (acc ++ [(String.mk k, v)]), r5)
            | _ => none
          | none => none
        | _ => none
      | none => none
    | _ => none

end

/-- `JSON.parse`: one value, then only whitespace may remain. -/
def jsonParse (s : String) : Option JsVal :=
  match parseVal (s.data.length + 1) s.data with
  | some (v, r) => if (skipWs r).isEmpty then some v else none
  | none => none

mutual

/-- Node count of a JSON value, the fuel measure of the parser proofs. -/
def sizeJ : JsVal → Nat
  | .arr xs => 1 + sizeJList xs
  | .obj kvs => 1 + sizeJMembers kvs
  | _ => 1

def sizeJList : List JsVal → Nat
  | [] => 0
  | x :: xs => 1 + sizeJ x + sizeJList xs

def sizeJMembers : List (String × JsVal) → Nat
  | [] => 0
  | kv :: kvs => 1 + sizeJ kv.2 + sizeJMembers kvs

end

mutual

/-- No `NaN` anywhere: exactly the values `JSON.stringify` renders
losslessly. -/
def noNaN : JsVal → Bool
  | .nan => false
  | .arr xs => noNaNList xs
  | .obj kvs => noNaNMembers kvs
  | _ => true

def noNaNList : List JsVal → Bool
  | [] => true
  | x :: xs => noNaN x && noNaNList xs

def noNaNMembers : List (String × JsVal) → Bool
  | [] => true
  | kv :: kvs => noNaN kv.2 && noNaNMembers kvs

end

/-! ## The Batch Document as a JS value -/

/-- A number-or-NaN field as the JS value `JSON.stringify` sees. -/
def optIntToJs : Option Int → JsVal
  | some n => .num n
  | none => .nan

def strJs (s : String) : JsVal := .str s.data

/-- One proxy record as the JS object `generateProxyConfig` returns, fields
in insertion order. -/
def recordToJs (r : ProxyRecord) : JsVal :=
  .obj [("active", .bool r.active), ("title", strJs r.title), ("type", strJs r.type),
        ("hostname", strJs r.hostname), ("port", optIntToJs r.port),
        ("username", strJs r.username), ("password", strJs r.password),
        ("cc", strJs r.cc), ("city", strJs r.city), ("color", strJs r.color),
        ("pac", strJs r.pac), ("pacString", strJs r.pacString),
        ("proxyDNS", .bool r.proxyDNS),
        ("include", .arr (r.includeL.map strJs)),
        ("exclude", .arr (r.excludeL.map strJs)),
        ("tabProxy", .arr (r.tabProxy.map strJs))]

def commandsToJs (c : Commands) : JsVal :=
  .obj [("setProxy", strJs c.setProxy), ("setTabProxy", strJs c.setTabProxy),
        ("includeHost", strJs c.includeHost), ("excludeHost", strJs c.excludeHost)]

/-- The full document as the JS object `generateFullConfig` returns, fields
in insertion order. -/
def configToJs (f : FullConfig) : JsVal :=
  .obj [("mode", strJs f.mode), ("sync", .bool f.sync),
        ("autoBackup", .bool f.autoBackup), ("passthrough", strJs f.passthrough),
        ("theme", strJs f.theme),
        ("container", .obj (f.container.map (fun kv => (kv.1, strJs kv.2)))),
        ("commands", commandsToJs f.commands),
        ("data", .arr (f.data.map recordToJs))]

/-- `getConfigAsJson`: generate, then `JSON.stringify(config, null, 2)`;
a generation failure is rewrapped with the method prefix. -/
def getConfigAsJson (g : FoxyProxyGenerator) : Except String (String × FoxyProxyGenerator) :=
  match generateFullConfig g with
  | .ok (doc, gA) => .ok (jsonStringify (configToJs doc), gA)
  | .error e => .error ("Failed to generate configuration: " ++ e)

/-- Valid credentials, a non-numeric port, and profile count 1. -/
def gBadPort : FoxyProxyGenerator :=
  { construct { port := some "abc", proxyCount := some "1" } true zeroBytes halfRnd with
    credentials := { username := some "alice", password := some "secret1" } }

/-- The document `generateFullConfig` produces from `gBadPort`. -/
def docBadPort : FullConfig :=
  { mode := "na.proxys5.net:abc"
    sync := false
    autoBackup := false
    passthrough := ""
    theme := ""
    container := []
    commands := { setProxy := "", setTabProxy := "", includeHost := "", excludeHost := "" }
    data := buildList gBadPort 0 1 }

/-! ## Side conditions of the parser proofs -/

/-- A list of whitespace characters only (the parser's whitespace set). -/
def wsOnly (l : List Char) : Prop :=
  ∀ c ∈ l, c = ' ' ∨ c = '\n' ∨ c = '\t' ∨ c = '\r'

/-- A continuation that cannot extend a numeral token: its head, if any, is
no digit and no fraction or exponent marker. -/
def goodTail : List Char → Prop
  | [] => True
  | c :: _ => c.isDigit = false ∧ c ≠ '.' ∧ c ≠ 'e' ∧ c ≠ 'E'

end FireFoxy


namespace FireFoxy

/-! ## Basic lemmas about the embedding -/

theorem jsLength_empty : jsLength "" = 0 := rfl

theorem jsLength_pos_ne (s : String) (h : 0 < jsLength s) : s ≠ "" := by
  intro he; subst he; simp [jsLength] at h

theorem strTruthy_some (s : String) : strTruthy (some s) = !(s == "") := by
  simp only [strTruthy]
  congr 1
  rcases em (s = "") with h | h
  · subst h; rfl
  · have hb : s.isEmpty = false := by
      rcases Bool.eq_false_or_eq_true s.isEmpty with hb | hb
      · exact absurd ((String.isEmpty_iff s).mp hb) h
      · exact hb
    rw [hb, beq_eq_false_iff_ne.mpr h]

/-- `validateCredentials` characterized by propositional conditions on the
stored fields. -/
theorem validateCredentials_cases (g : FoxyProxyGenerator) :
    validateCredentials g =
      if g.credentials.username = none ∨ g.credentials.username = some "" ∨
         g.credentials.password = none ∨ g.credentials.password = some "" then
        .error .missing
      else if jsLength (g.credentials.username.getD "") < 3 then
        .error .usernameTooShort
      else if jsLength (g.credentials.password.getD "") < 6 then
        .error .passwordTooShort
      else .ok true := by
  rcases hcu : g.credentials.username with _ | su
  · simp [validateCredentials, hcu, strTruthy]
  · rcases hcp : g.credentials.password with _ | sp
    · simp [validateCredentials, hcu, hcp, strTruthy, strTruthy_some]
    · rcases em (su = "") with hsu | hsu
      · subst hsu; simp [validateCredentials, hcu, hcp, strTruthy_some]
      · rcases em (sp = "") with hsp | hsp
        · subst hsp; simp [validateCredentials, hcu, hcp, strTruthy_some, hsu]
        · simp [validateCredentials, hcu, hcp, strTruthy_some, hsu, hsp]

/-- **C2.** `validateCredentials` fails with the missing-credential error
exactly when the stored username or password is empty or absent; fails with
a too-short error exactly when both are non-empty strings and the username
has fewer than 3 UTF-16 units or the password fewer than 6; succeeds
otherwise.  The five concrete credential pairs named by the claim behave as
stated. -/
theorem claim_C2 (g : FoxyProxyGenerator) :
    (validateCredentials g = .error .missing ↔
      (g.credentials.username = none ∨ g.credentials.username = some "" ∨
       g.credentials.password = none ∨ g.credentials.password = some "")) ∧
    ((validateCredentials g = .error .usernameTooShort ∨
      validateCredentials g = .error .passwordTooShort) ↔
      (∃ su sp, g.credentials.username = some su ∧ g.credentials.password = some sp ∧
        su ≠ "" ∧ sp ≠ "" ∧ (jsLength su < 3 ∨ jsLength sp < 6))) ∧
    (validateCredentials g = .ok true ↔
      (∃ su sp, g.credentials.username = some su ∧ g.credentials.password = some sp ∧
        3 ≤ jsLength su ∧ 6 ≤ jsLength sp)) ∧
    validateCredentials
      { g with credentials := { username := some "", password := some "anything" } } =
        .error .missing ∧
    validateCredentials
      { g with credentials := { username := some "user", password := some "" } } =
        .error .missing ∧
    validateCredentials
      { g with credentials := { username := none, password := none } } =
        .error .missing ∧
    validateCredentials
      { g with credentials := { username := some "ab", password := some "longenough" } } =
        .error .usernameTooShort ∧
    validateCredentials
      { g with credentials := { username := some "longenough", password := some "short" } } =
        .error .passwordTooShort := by
  have hch := validateCredentials_cases g
  refine ⟨?_, ?_, ?_, rfl, rfl, rfl, rfl, rfl⟩
  · rw [hch]
    by_cases hm : (g.credentials.username = none ∨ g.credentials.username = some "" ∨
        g.credentials.password = none ∨ g.credentials.password = some "")
    · simp [hm]
    · simp [hm]; split_ifs <;> simp
  · rw [hch]
    rcases hcu : g.credentials.username with _ | su
    · simp [hcu]
    · rcases hcp : g.credentials.password with _ | sp
      · simp [hcu, hcp]
      · rcases em (su = "") with hsu | hsu
        · subst hsu; simp [hcu, hcp]
        · rcases em (sp = "") with hsp | hsp
          · subst hsp; simp [hcu, hcp, hsu]
          · simp [hcu, hcp, hsu, hsp]
            rcases em (jsLength su < 3) with h3 | h3
            · simp [h3]
            · rcases em (jsLength sp < 6) with h6 | h6 <;> simp [h3, h6]
  · rw [hch]
    rcases hcu : g.credentials.username with _ | su
    · simp [hcu]
    · rcases hcp : g.credentials.password with _ | sp
      · simp [hcu, hcp]
      · rcases em (su = "") with hsu | hsu
        · subst hsu; simp [hcu, hcp, jsLength_empty]
        · rcases em (sp = "") with hsp | hsp
          · subst hsp; simp [hcu, hcp, hsu, jsLength_empty]
          · simp [hcu, hcp, hsu, hsp]
            rcases em (jsLength su < 3) with h3 | h3
            · simp [h3]; try omega
            · rcases em (jsLength sp < 6) with h6 | h6 <;> simp [h3, h6] <;> try omega

end FireFoxy

namespace FireFoxy

/-! ## Helper lemmas about single-record generation -/

theorem string_mk_ext {s t : String} (h : s.data = t.data) : s = t := by
  cases s; cases t; exact congrArg String.mk h

theorem validateCredentials_ok_true (g : FoxyProxyGenerator) (b : Bool)
    (h : validateCredentials g = .ok b) : b = true := by
  unfold validateCredentials at h
  split_ifs at h <;> simp_all

theorem gpc_ok (g : FoxyProxyGenerator) (i : Nat)
    (h : validateCredentials g = .ok true) :
    generateProxyConfig g i = .ok (mkRecord g i, { g with rndPos := g.rndPos + 8 }) := by
  simp [generateProxyConfig, h, mkRecord, generateSessionId]

theorem gpc_ok_inv {g : FoxyProxyGenerator} {i : Nat} {rec : ProxyRecord}
    {g' : FoxyProxyGenerator} (h : generateProxyConfig g i = .ok (rec, g')) :
    validateCredentials g = .ok true ∧ rec = mkRecord g i ∧
      g' = { g with rndPos := g.rndPos + 8 } := by
  rcases hv : validateCredentials g with e | b
  · simp [generateProxyConfig, hv] at h
  · have hb := validateCredentials_ok_true g b hv
    subst hb
    rw [gpc_ok g i hv] at h
    simp only [Except.ok.injEq, Prod.mk.injEq] at h
    exact ⟨rfl, h.1.symm, h.2.symm⟩


theorem username_glue (a sid : String) :
    a ++ "-region-" ++ "US" ++ "-sessid-" ++ sid ++ "-sessTime-120" =
      a ++ "-region-US-" ++ ("sessid-" ++ (sid ++ "-sessTime-120")) := by
  apply string_mk_ext
  simp only [String.data_append, List.append_assoc]
  congr 1

/-- **C5.** Region normalization happens exactly once, at construction: a
generator constructed with region `"USA"` has effective region `"US"` (and
every successfully generated record's auth username then contains
`-region-US-`); any other supplied region passes through unchanged (an
absent one defaults to `"US"`); assigning the region field after
construction stores the assigned value without re-normalization. -/
theorem claim_C5 :
    (∀ input cb rb rf, input.region = some "USA" →
        (construct input cb rb rf).config.region = "US") ∧
    (∀ input cb rb rf r, input.region = some r → r ≠ "USA" →
        (construct input cb rb rf).config.region = r) ∧
    (∀ input cb rb rf, input.region = none →
        (construct input cb rb rf).config.region = "US") ∧
    (∀ g r, (setRegion g r).config.region = r) ∧
    (∀ g i rec g', g.config.region = "US" →
        generateProxyConfig g i = .ok (rec, g') →
        rec.username = (g.credentials.username.getD "") ++ "-region-US-" ++
          ("sessid-" ++ ((generateSessionId g).1 ++ "-sessTime-120"))) := by
  refine ⟨?_, ?_, ?_, ?_, ?_⟩
  · intro input cb rb rf h; simp [construct, h]
  · intro input cb rb rf r h hne; simp [construct, h, hne]
  · intro input cb rb rf h; simp [construct, h]
  · intro g r; rfl
  · intro g i rec g' hr hok
    obtain ⟨hv, hrec, hg'⟩ := gpc_ok_inv hok
    subst hrec
    simp only [mkRecord, hr]
    exact username_glue _ _

theorem claim_C5_witness :
    (construct { region := some "USA" } true zeroBytes halfRnd).config.region = "US" ∧
    (construct { region := some "DE" } true zeroBytes halfRnd).config.region = "DE" ∧
    (construct {} true zeroBytes halfRnd).config.region = "US" ∧
    (setRegion gExample "USA").config.region = "USA" ∧
    (mkRecord gExample 0).username =
      "alice" ++ "-region-US-" ++ ("sessid-" ++ ("aaaaaaaa" ++ "-sessTime-120")) := by
  obtain ⟨h1, h2, h3, h4, h5⟩ := claim_C5
  refine ⟨h1 _ _ _ _ rfl, h2 _ _ _ _ _ rfl (by decide), h3 _ _ _ _ rfl, h4 _ _, ?_⟩
  have := h5 gExample 0 (mkRecord gExample 0)
    { gExample with rndPos := gExample.rndPos + 8 } rfl (gpc_ok gExample 0 rfl)
  exact this

/-- **C8.** A successful `generateProxyConfig` leaves the template
configuration, the stored credentials, the two palettes and the randomness
sources unchanged; the only state change is advancing the randomness
position by the eight draws made. -/
theorem claim_C8 (g : FoxyProxyGenerator) (i : Nat) (rec : ProxyRecord)
    (g' : FoxyProxyGenerator) (hok : generateProxyConfig g i = .ok (rec, g')) :
    g'.config = g.config ∧ g'.credentials = g.credentials ∧
    g'.colors = g.colors ∧ g'.icons = g.icons ∧
    g'.cryptoAvailable = g.cryptoAvailable ∧ g'.rndBytes = g.rndBytes ∧
    g'.rndFloat = g.rndFloat ∧ g'.rndPos = g.rndPos + 8 := by
  obtain ⟨-, -, hg'⟩ := gpc_ok_inv hok
  subst hg'
  exact ⟨rfl, rfl, rfl, rfl, rfl, rfl, rfl, rfl⟩

theorem claim_C8_witness :
    ({ gExample with rndPos := gExample.rndPos + 8 } : FoxyProxyGenerator).config =
        gExample.config ∧
    ({ gExample with rndPos := gExample.rndPos + 8 } : FoxyProxyGenerator).credentials =
        gExample.credentials ∧
    ({ gExample with rndPos := gExample.rndPos + 8 } : FoxyProxyGenerator).colors =
        gExample.colors ∧
    ({ gExample with rndPos := gExample.rndPos + 8 } : FoxyProxyGenerator).icons =
        gExample.icons ∧
    ({ gExample with rndPos := gExample.rndPos + 8 } : FoxyProxyGenerator).cryptoAvailable =
        gExample.cryptoAvailable ∧
    ({ gExample with rndPos := gExample.rndPos + 8 } : FoxyProxyGenerator).rndBytes =
        gExample.rndBytes ∧
    ({ gExample with rndPos := gExample.rndPos + 8 } : FoxyProxyGenerator).rndFloat =
        gExample.rndFloat ∧
    ({ gExample with rndPos := gExample.rndPos + 8 } : FoxyProxyGenerator).rndPos =
        gExample.rndPos + 8 :=
  claim_C8 gExample 0 (mkRecord gExample 0)
    { gExample with rndPos := gExample.rndPos + 8 } (gpc_ok gExample 0 rfl)

/-- **C9.** `getConfigInfo` returns exactly the four template fields and the
credential-truthiness flag, and is insensitive to the actual credential
values: two states agreeing on the template and on the truthiness of each
credential field produce identical summaries, whatever the passwords are. -/
theorem claim_C9 (g1 g2 : FoxyProxyGenerator)
    (hc : g1.config = g2.config)
    (hu : strTruthy g1.credentials.username = strTruthy g2.credentials.username)
    (hp : strTruthy g1.credentials.password = strTruthy g2.credentials.password) :
    getConfigInfo g1 = getConfigInfo g2 ∧
    getConfigInfo g1 =
      { endpoint := g1.config.endpoint, port := g1.config.port,
        region := g1.config.region, proxyCount := g1.config.proxyCount,
        hasCredentials :=
          strTruthy g1.credentials.username && strTruthy g1.credentials.password } := by
  refine ⟨?_, rfl⟩
  simp [getConfigInfo, hc, hu, hp]

theorem claim_C9_witness :
    getConfigInfo gExample = getConfigInfo gOther ∧
    getConfigInfo gExample =
      { endpoint := gExample.config.endpoint, port := gExample.config.port,
        region := gExample.config.region, proxyCount := gExample.config.proxyCount,
        hasCredentials :=
          strTruthy gExample.credentials.username &&
            strTruthy gExample.credentials.password } :=
  claim_C9 gExample gOther rfl rfl rfl

theorem jsTrim_all_ws (s : String) (h : ∀ c ∈ s.data, jsIsWhitespace c) :
    jsTrim s = "" := by
  unfold jsTrim
  rw [List.dropWhile_eq_nil_iff.mpr h]
  rfl

/-- **C10.** For non-empty all-whitespace arguments, `updateCredentials`
succeeds (the emptiness check runs before trimming) but stores empty strings
for both fields, so validation then fails with the missing-credential error
and the summary reports `hasCredentials = false`. -/
theorem claim_C10 (g : FoxyProxyGenerator) (u p : String)
    (hu : u ≠ "") (hp : p ≠ "")
    (hwu : ∀ c ∈ u.data, jsIsWhitespace c) (hwp : ∀ c ∈ p.data, jsIsWhitespace c) :
    updateCredentials g (some u) (some p) =
      .ok { g with credentials := { username := some "", password := some "" } } ∧
    validateCredentials
      { g with credentials := { username := some "", password := some "" } } =
      .error .missing ∧
    (getConfigInfo
      { g with credentials := { username := some "", password := some "" } }).hasCredentials =
      false := by
  refine ⟨?_, rfl, rfl⟩
  have htu : (u == "") = false := beq_eq_false_iff_ne.mpr hu
  have htp : (p == "") = false := beq_eq_false_iff_ne.mpr hp
  simp [updateCredentials, strTruthy_some, htu, htp, jsTrim_all_ws u hwu, jsTrim_all_ws p hwp]

theorem claim_C10_witness :
    updateCredentials gExample (some " ") (some "  ") =
      .ok { gExample with credentials := { username := some "", password := some "" } } ∧
    validateCredentials
      { gExample with credentials := { username := some "", password := some "" } } =
      .error .missing ∧
    (getConfigInfo
      { gExample with
        credentials := { username := some "", password := some "" } }).hasCredentials =
      false :=
  claim_C10 gExample " " "  " (by decide) (by decide) (by decide) (by decide)

end FireFoxy

namespace FireFoxy

/-! ## Session-id lemmas -/

theorem data_empty : ("" : String).data = [] := rfl

theorem sessionChars_length : sessionChars.length = 62 := rfl

theorem sessionChars_alnum : ∀ c ∈ sessionChars, c.isAlpha ∨ c.isDigit := by decide

theorem foldl_append_data (l : List String) :
    ∀ acc : String, (l.foldl (fun r s => r ++ s) acc).data =
      acc.data ++ (l.map String.data).join := by
  induction l with
  | nil => intro acc; simp
  | cons s t ih => intro acc; simp [ih, String.data_append]

theorem join_data (l : List String) :
    (String.join l).data = (l.map String.data).join := by
  have := foldl_append_data l ""
  simpa [String.join, data_empty] using this

theorem charAt_lt {l : List Char} {i : Nat} (h : i < l.length) :
    ∃ c, charAt l i = String.singleton c ∧ c ∈ l := by
  refine ⟨l.get ⟨i, h⟩, ?_, List.get_mem l i h⟩
  have hg : l[i]? = some l[i] := List.getElem?_eq_getElem h
  simp [charAt, hg]

theorem singletons_flatten_length :
    ∀ L : List String, (∀ x ∈ L, x.data.length = 1) →
      ((L.map String.data).join).length = L.length := by
  intro L
  induction L with
  | nil => intro _; simp
  | cons s t ih =>
    intro hL
    have h1 : s.data.length = 1 := hL s (List.mem_cons_self s t)
    have h2 := ih (fun x hx => hL x (List.mem_cons_of_mem s hx))
    simp [h1, h2]
    omega

theorem sessionIdx_lt (g : FoxyProxyGenerator)
    (hfb : ∀ n, 0 ≤ g.rndFloat n ∧ g.rndFloat n < 1) (i : Nat) :
    sessionIdx g i < 62 := by
  unfold sessionIdx
  split
  · exact Nat.mod_lt _ (by norm_num)
  · obtain ⟨h0, h1⟩ := hfb (g.rndPos + i)
    have hlt : ⌊g.rndFloat (g.rndPos + i) * 62⌋ < (62 : ℤ) := by
      apply Int.floor_lt.mpr
      push_cast
      nlinarith
    omega

theorem generateSessionId_chars (g : FoxyProxyGenerator)
    (h : ∀ i, i < 8 → sessionIdx g i < 62) :
    (generateSessionId g).1.length = 8 ∧
      ∀ c ∈ (generateSessionId g).1.data, c ∈ sessionChars := by
  have hone : ∀ i ∈ List.range 8,
      (charAt sessionChars (sessionIdx g i)).data.length = 1 ∧
        ∀ c ∈ (charAt sessionChars (sessionIdx g i)).data, c ∈ sessionChars := by
    intro i hi
    have hlt : sessionIdx g i < sessionChars.length := by
      rw [sessionChars_length]; exact h i (List.mem_range.mp hi)
    obtain ⟨c, hc, hcm⟩ := charAt_lt hlt
    rw [hc]
    refine ⟨rfl, ?_⟩
    intro x hx
    simp [String.singleton] at hx
    subst hx
    exact hcm
  have hdata : (generateSessionId g).1.data =
      (((List.range 8).map (fun i => charAt sessionChars (sessionIdx g i))).map
        String.data).join := by
    apply join_data
  constructor
  · show (generateSessionId g).1.data.length = 8
    rw [hdata]
    have hone' : ∀ x ∈ (List.range 8).map (fun i => charAt sessionChars (sessionIdx g i)),
        x.data.length = 1 := by
      intro x hx
      obtain ⟨i, hi, hieq⟩ := List.mem_map.mp hx
      subst hieq
      exact (hone i hi).1
    rw [singletons_flatten_length _ hone']
    simp
  · intro c hc
    rw [hdata] at hc
    obtain ⟨lx, hlx, hcl⟩ := List.mem_join.mp hc
    obtain ⟨sx, hsx, hseq⟩ := List.mem_map.mp hlx
    obtain ⟨i, hi, hieq⟩ := List.mem_map.mp hsx
    subst hieq
    subst hseq
    exact (hone i hi).2 c hcl

/-- **C4.** `generateSessionId` always returns a string of exactly 8
characters drawn from the fixed 62-character alphanumeric alphabet, on both
the secure path and the `Math.random` fallback path (the fallback stream
being in `[0,1)` as `Math.random` guarantees); it has no error outcome. -/
theorem claim_C4 (g : FoxyProxyGenerator)
    (hfb : ∀ n, 0 ≤ g.rndFloat n ∧ g.rndFloat n < 1) :
    (generateSessionId g).1.length = 8 ∧
    (∀ c ∈ (generateSessionId g).1.data, c ∈ sessionChars) ∧
    sessionChars.length = 62 ∧
    (∀ c ∈ sessionChars, c.isAlpha ∨ c.isDigit) := by
  obtain ⟨h1, h2⟩ := generateSessionId_chars g (fun i _ => sessionIdx_lt g hfb i)
  exact ⟨h1, h2, sessionChars_length, sessionChars_alnum⟩

theorem claim_C4_witness :
    ((generateSessionId gExample).1.length = 8 ∧
      (∀ c ∈ (generateSessionId gExample).1.data, c ∈ sessionChars) ∧
      sessionChars.length = 62 ∧
      (∀ c ∈ sessionChars, c.isAlpha ∨ c.isDigit)) ∧
    ((generateSessionId gExampleFallback).1.length = 8 ∧
      (∀ c ∈ (generateSessionId gExampleFallback).1.data, c ∈ sessionChars) ∧
      sessionChars.length = 62 ∧
      (∀ c ∈ sessionChars, c.isAlpha ∨ c.isDigit)) := by
  constructor
  · exact claim_C4 gExample (by intro n; constructor <;> norm_num [gExample, construct, halfRnd])
  · exact claim_C4 gExampleFallback
      (by intro n; constructor <;> norm_num [gExampleFallback, construct, halfRnd])

/-- **C3.** Every record built with valid credentials has
`username = {stored username}-region-{template region}-sessid-{sid}-sessTime-120`
where `sid` is 8 alphanumeric characters and the trailing `120` is the fixed
literal. -/
theorem claim_C3 (g : FoxyProxyGenerator) (i : Nat) (rec : ProxyRecord)
    (g' : FoxyProxyGenerator)
    (hfb : ∀ n, 0 ≤ g.rndFloat n ∧ g.rndFloat n < 1)
    (hok : generateProxyConfig g i = .ok (rec, g')) :
    rec.username = (g.credentials.username.getD "") ++ "-region-" ++
      g.config.region ++ "-sessid-" ++ (generateSessionId g).1 ++ "-sessTime-120" ∧
    g.credentials.username = some (g.credentials.username.getD "") ∧
    (generateSessionId g).1.length = 8 ∧
    (∀ c ∈ (generateSessionId g).1.data, c.isAlpha ∨ c.isDigit) := by
  obtain ⟨hv, hrec, -⟩ := gpc_ok_inv hok
  subst hrec
  obtain ⟨hlen, hmem⟩ :=
    generateSessionId_chars g (fun j _ => sessionIdx_lt g hfb j)
  refine ⟨rfl, ?_, hlen, fun c hc => sessionChars_alnum c (hmem c hc)⟩
  rw [validateCredentials_cases] at hv
  rcases hcu : g.credentials.username with _ | su
  · rw [hcu] at hv; simp at hv
  · simp [hcu]

end FireFoxy

namespace FireFoxy

/-! ## Batch-loop lemmas -/

theorem defaultColors_length : defaultColors.length = 20 := rfl

theorem defaultIcons_length : defaultIcons.length = 20 := rfl

theorem buildConfigs_eq : ∀ (n : Nat) (g : FoxyProxyGenerator) (i : Nat),
    validateCredentials g = .ok true →
    buildConfigs g i n =
      .ok (buildList g i n, { g with rndPos := g.rndPos + 8 * n }) := by
  intro n
  induction n with
  | zero => intro g i h; rfl
  | succ n ih =>
    intro g i h
    rw [buildConfigs, gpc_ok g i h]
    dsimp only
    rw [ih { g with rndPos := g.rndPos + 8 } (i + 1) h]
    have harith : g.rndPos + 8 + 8 * n = g.rndPos + 8 * (n + 1) := by ring
    simp [buildList, harith, Except.map]

theorem buildList_length : ∀ (n : Nat) (g : FoxyProxyGenerator) (i : Nat),
    (buildList g i n).length = n := by
  intro n
  induction n with
  | zero => intro g i; rfl
  | succ n ih => intro g i; simp [buildList, ih]

theorem buildList_get? : ∀ (n : Nat) (g : FoxyProxyGenerator) (i j : Nat), j < n →
    (buildList g i n).get? j =
      some (mkRecord { g with rndPos := g.rndPos + 8 * j } (i + j)) := by
  intro n
  induction n with
  | zero => intro g i j hj; exact absurd hj (by omega)
  | succ n ih =>
    intro g i j hj
    cases j with
    | zero => rfl
    | succ j =>
      have hrec := ih { g with rndPos := g.rndPos + 8 } (i + 1) j (by omega)
      have harith : g.rndPos + 8 + 8 * j = g.rndPos + 8 * (j + 1) := by ring
      have hidx : i + 1 + j = i + (j + 1) := by ring
      simpa [buildList, harith, hidx] using hrec

theorem generateFullConfig_eq (g : FoxyProxyGenerator)
    (hv : validateCredentials g = .ok true) :
    generateFullConfig g = .ok
      ({ mode := g.config.endpoint ++ ":" ++ g.config.port
         sync := false
         autoBackup := false
         passthrough := ""
         theme := ""
         container := []
         commands := { setProxy := "", setTabProxy := "", includeHost := "", excludeHost := "" }
         data := buildList g 0 (effectiveCount g.config.proxyCount) },
       { g with rndPos := g.rndPos + 8 * effectiveCount g.config.proxyCount }) := by
  simp only [generateFullConfig, hv]
  rw [buildConfigs_eq _ g 0 hv]
  rfl

theorem gfc_ok_inv {g : FoxyProxyGenerator} {doc : FullConfig}
    {g' : FoxyProxyGenerator} (h : generateFullConfig g = .ok (doc, g')) :
    validateCredentials g = .ok true ∧
      doc.data = buildList g 0 (effectiveCount g.config.proxyCount) := by
  rcases hv : validateCredentials g with e | b
  · simp [generateFullConfig, hv] at h
  · have hb := validateCredentials_ok_true g b hv
    subst hb
    rw [generateFullConfig_eq g hv] at h
    simp only [Except.ok.injEq, Prod.mk.injEq] at h
    exact ⟨rfl, by rw [← h.1]⟩

/-- **C1** (amended).  With valid credentials, `generateFullConfig` returns
exactly the clamped count of records: `proxyCount` itself when it parses to
an integer in `[1,50]`; `50` when it parses above `50`; `10` when it is
absent or non-numeric (`NaN`) or parses to exactly `0`; and `1` — not `10`
as claimed — when it parses to a negative integer. -/
theorem claim_C1 (g : FoxyProxyGenerator) (hv : validateCredentials g = .ok true) :
    (generateFullConfig g).toOption.map (fun p => p.1.data.length) =
      some (effectiveCount g.config.proxyCount) ∧
    (∀ v : Int, parseIntBase10 g.config.proxyCount = some v → 1 ≤ v → v ≤ 50 →
      (effectiveCount g.config.proxyCount : Int) = v) ∧
    (∀ v : Int, parseIntBase10 g.config.proxyCount = some v → 50 < v →
      effectiveCount g.config.proxyCount = 50) ∧
    (parseIntBase10 g.config.proxyCount = none →
      effectiveCount g.config.proxyCount = 10) ∧
    (parseIntBase10 g.config.proxyCount = some 0 →
      effectiveCount g.config.proxyCount = 10) ∧
    (∀ v : Int, parseIntBase10 g.config.proxyCount = some v → v < 0 →
      effectiveCount g.config.proxyCount = 1) := by
  refine ⟨?_, ?_, ?_, ?_, ?_, ?_⟩
  · rw [generateFullConfig_eq g hv]
    simp [Except.toOption, buildList_length]
  · intro v hp h1 h50
    simp only [effectiveCount, hp]
    rw [if_neg (show ¬ v = 0 by omega)]
    rw [min_eq_right (show v ≤ 50 by omega), max_eq_right (show (1 : Int) ≤ v by omega)]
    exact Int.toNat_of_nonneg (by omega)
  · intro v hp h50
    simp only [effectiveCount, hp]
    rw [if_neg (show ¬ v = 0 by omega)]
    rw [min_eq_left (show (50 : Int) ≤ v by omega)]
    rfl
  · intro hp
    simp only [effectiveCount, hp]
    rfl
  · intro hp
    simp only [effectiveCount, hp]
    rfl
  · intro v hp hneg
    simp only [effectiveCount, hp]
    rw [if_neg (show ¬ v = 0 by omega)]
    rw [min_eq_right (show v ≤ 50 by omega), max_eq_left (show v ≤ (1 : Int) by omega)]
    rfl

theorem claim_C1_witness :
    (generateFullConfig gExample).toOption.map (fun p => p.1.data.length) = some 10 ∧
    parseIntBase10 gExample.config.proxyCount = some 10 ∧
    (effectiveCount gExample.config.proxyCount : Int) = 10 := by
  have h := claim_C1 gExample rfl
  exact ⟨h.1, rfl, h.2.1 10 rfl (by norm_num) (by norm_num)⟩

theorem claim_C1_counterexample :
    parseIntBase10 gNegCount.config.proxyCount = some (-5) ∧
    (generateFullConfig gNegCount).toOption.map (fun p => p.1.data.length) = some 1 ∧
    (generateFullConfig gNegCount).toOption.map (fun p => p.1.data.length) ≠ some 10 :=
  ⟨rfl, rfl, by decide⟩

/-- **C6.** For a batch generated with valid credentials (palettes being the
constructor's), the record at position `i` of the data array is the record
built for index `i`: its title is the decimal of `i + 1`, a space, and the
icon-palette entry at `i mod 20`, and its color is the color-palette entry
at `i mod 20`. -/
theorem claim_C6 (g : FoxyProxyGenerator) (doc : FullConfig)
    (g' : FoxyProxyGenerator) (hok : generateFullConfig g = .ok (doc, g'))
    (hcol : g.colors = defaultColors) (hico : g.icons = defaultIcons) :
    ∀ i, i < doc.data.length →
      doc.data.get? i = some (mkRecord { g with rndPos := g.rndPos + 8 * i } i) ∧
      (doc.data.get? i).map ProxyRecord.title =
        some (toString (i + 1) ++ " " ++ defaultIcons.getD (i % 20) "") ∧
      (doc.data.get? i).map ProxyRecord.color =
        some (defaultColors.getD (i % 20) "") := by
  obtain ⟨hv, hdata⟩ := gfc_ok_inv hok
  intro i hi
  have hlen : doc.data.length = effectiveCount g.config.proxyCount := by
    rw [hdata, buildList_length]
  have hget := buildList_get? (effectiveCount g.config.proxyCount) g 0 i (by omega)
  rw [Nat.zero_add] at hget
  refine ⟨by rw [hdata, hget], ?_, ?_⟩
  · rw [hdata, hget]
    simp [mkRecord, hico, defaultIcons_length]
  · rw [hdata, hget]
    simp [mkRecord, hcol, defaultColors_length]

theorem claim_C6_witness :
    docExample.data.get? 3 =
      some (mkRecord { gExample with rndPos := gExample.rndPos + 8 * 3 } 3) ∧
    (docExample.data.get? 3).map ProxyRecord.title =
      some (toString (3 + 1) ++ " " ++ defaultIcons.getD (3 % 20) "") ∧
    (docExample.data.get? 3).map ProxyRecord.color =
      some (defaultColors.getD (3 % 20) "") := by
  have h := claim_C6 gExample docExample
    { gExample with rndPos := gExample.rndPos + 8 * 10 }
    (generateFullConfig_eq gExample rfl) rfl rfl
  exact h 3 (by decide)

end FireFoxy

namespace FireFoxy

theorem claim_C3_witness :
    (mkRecord gExample 0).username = (gExample.credentials.username.getD "") ++
      "-region-" ++ gExample.config.region ++ "-sessid-" ++
      (generateSessionId gExample).1 ++ "-sessTime-120" ∧
    gExample.credentials.username = some (gExample.credentials.username.getD "") ∧
    (generateSessionId gExample).1.length = 8 ∧
    (∀ c ∈ (generateSessionId gExample).1.data, c.isAlpha ∨ c.isDigit) :=
  claim_C3 gExample 0 (mkRecord gExample 0)
    { gExample with rndPos := gExample.rndPos + 8 }
    (by intro n; constructor <;> norm_num [gExample, construct, halfRnd])
    (gpc_ok gExample 0 rfl)

end FireFoxy

namespace FireFoxy

/-! ## Whitespace and escape lemmas for the parser -/

theorem skipWs_cons_of_ws {c : Char} {l : List Char}
    (h : c = ' ' ∨ c = '\n' ∨ c = '\t' ∨ c = '\r') :
    skipWs (c :: l) = skipWs l := by
  simp only [skipWs]
  rw [if_pos h]

theorem skipWs_cons_of_not {c : Char} {l : List Char}
    (h : ¬(c = ' ' ∨ c = '\n' ∨ c = '\t' ∨ c = '\r')) :
    skipWs (c :: l) = c :: l := by
  simp only [skipWs]
  rw [if_neg h]

theorem skipWs_append_wsOnly : ∀ ws : List Char, wsOnly ws → ∀ l : List Char,
    skipWs (ws ++ l) = skipWs l := by
  intro ws
  induction ws with
  | nil => intro _ l; rfl
  | cons c cs ih =>
    intro h l
    rw [List.cons_append, skipWs_cons_of_ws (h c (List.mem_cons_self _ _))]
    exact ih (fun x hx => h x (List.mem_cons_of_mem _ hx)) l

theorem wsOnly_indent (n : Nat) : wsOnly (indentChars n) := by
  intro c hc
  exact Or.inl (List.eq_of_mem_replicate hc)

theorem parseVal_wsPre (fuel : Nat) {ws : List Char} (h : wsOnly ws) (l : List Char) :
    parseVal fuel (ws ++ l) = parseVal fuel l := by
  cases fuel with
  | zero => rfl
  | succ f =>
    show parseVal (f + 1) (ws ++ l) = parseVal (f + 1) l
    simp only [parseVal]
    rw [skipWs_append_wsOnly ws h l]

theorem parseElems_wsPre (fuel : Nat) {ws : List Char} (h : wsOnly ws)
    (l : List Char) (acc : List JsVal) :
    parseElems fuel (ws ++ l) acc = parseElems fuel l acc := by
  cases fuel with
  | zero => rfl
  | succ f =>
    show parseElems (f + 1) (ws ++ l) acc = parseElems (f + 1) l acc
    simp only [parseElems]
    rw [parseVal_wsPre f h l]

theorem parseMembers_wsPre (fuel : Nat) {ws : List Char} (h : wsOnly ws)
    (l : List Char) (acc : List (String × JsVal)) :
    parseMembers fuel (ws ++ l) acc = parseMembers fuel l acc := by
  cases fuel with
  | zero => rfl
  | succ f =>
    show parseMembers (f + 1) (ws ++ l) acc = parseMembers (f + 1) l acc
    simp only [parseMembers]
    rw [skipWs_append_wsOnly ws h l]

theorem escapeList_cons (c : Char) (cs : List Char) :
    escapeList (c :: cs) = escapeChar c ++ escapeList cs := by
  simp [escapeList]

theorem hexVal_hexChar (n : Nat) (h : n < 16) : hexVal (hexChar n) = some n := by
  interval_cases n <;> rfl

end FireFoxy

namespace FireFoxy

theorem parseStringBody_escape : ∀ (s : List Char) (rest : List Char),
    parseStringBody (escapeList s ++ '"' :: rest) = some (s, rest) := by
  intro s
  induction s with
  | nil =>
    intro rest
    show parseStringBody ('"' :: rest) = some ([], rest)
    unfold parseStringBody
    simp
  | cons c cs ih =>
    intro rest
    rw [escapeList_cons, List.append_assoc]
    by_cases h1 : c = '"'
    · subst h1
      show parseStringBody ('\\' :: '"' :: (escapeList cs ++ '"' :: rest)) = _
      unfold parseStringBody
      simp [mapConsStr, ih]
    · by_cases h2 : c = '\\'
      · subst h2
        show parseStringBody ('\\' :: '\\' :: (escapeList cs ++ '"' :: rest)) = _
        unfold parseStringBody
        simp [mapConsStr, ih]
      · by_cases h3 : c = '\n'
        · subst h3
          show parseStringBody ('\\' :: 'n' :: (escapeList cs ++ '"' :: rest)) = _
          unfold parseStringBody
          simp [mapConsStr, ih]
        · by_cases h4 : c = '\r'
          · subst h4
            show parseStringBody ('\\' :: 'r' :: (escapeList cs ++ '"' :: rest)) = _
            unfold parseStringBody
            simp [mapConsStr, ih]
          · by_cases h5 : c = '\t'
            · subst h5
              show parseStringBody ('\\' :: 't' :: (escapeList cs ++ '"' :: rest)) = _
              unfold parseStringBody
              simp [mapConsStr, ih]
            · by_cases h6 : c.toNat = 8
              · have hc : c = Char.ofNat 8 := by rw [← Char.ofNat_toNat c, h6]
                subst hc
                show parseStringBody ('\\' :: 'b' :: (escapeList cs ++ '"' :: rest)) = _
                unfold parseStringBody
                simp [mapConsStr, ih]
              · by_cases h7 : c.toNat = 12
                · have hc : c = Char.ofNat 12 := by rw [← Char.ofNat_toNat c, h7]
                  subst hc
                  show parseStringBody ('\\' :: 'f' :: (escapeList cs ++ '"' :: rest)) = _
                  unfold parseStringBody
                  simp [mapConsStr, ih]
                · by_cases h8 : c.toNat < 32
                  · have hesc : escapeChar c =
                        ['\\', 'u', '0', '0', hexChar (c.toNat / 16), hexChar (c.toNat % 16)] := by
                      simp [escapeChar, h1, h2, h3, h4, h5, h6, h7, h8]
                    have hx1 : hexVal (hexChar (c.toNat / 16)) = some (c.toNat / 16) :=
                      hexVal_hexChar _ (by omega)
                    have hx2 : hexVal (hexChar (c.toNat % 16)) = some (c.toNat % 16) :=
                      hexVal_hexChar _ (by omega)
                    have heq : 4096 * 0 + 256 * 0 + 16 * (c.toNat / 16) + c.toNat % 16 =
                        c.toNat := by omega
                    have hvalid : (c.toNat).isValidChar := Or.inl (by omega)
                    rw [hesc]
                    show parseStringBody ('\\' :: 'u' :: '0' :: '0' ::
                      hexChar (c.toNat / 16) :: hexChar (c.toNat % 16) ::
                      (escapeList cs ++ '"' :: rest)) = _
                    unfold parseStringBody
                    simp only [hx1, hx2]
                    have h0 : hexVal '0' = some 0 := rfl
                    simp only [h0]
                    simp [heq, hvalid, mapConsStr, ih, Char.ofNat_toNat]
                    have hdm : 16 * (c.toNat / 16) + c.toNat % 16 = c.toNat :=
                      Nat.div_add_mod _ 16
                    exact ⟨by rw [hdm]; exact hvalid, by rw [hdm]; exact Char.ofNat_toNat c⟩
                  · have hesc : escapeChar c = [c] := by
                      simp [escapeChar, h1, h2, h3, h4, h5, h6, h7, h8]
                    rw [hesc]
                    show parseStringBody (c :: (escapeList cs ++ '"' :: rest)) = _
                    unfold parseStringBody
                    simp [h1, h2, h8, mapConsStr, ih]

end FireFoxy

namespace FireFoxy

/-! ## Numeral lemmas for the parser -/

theorem natDigitsAux_lt10 : ∀ (f n : Nat), ∀ d ∈ natDigitsAux f n, d < 10 := by
  intro f
  induction f with
  | zero => intro n d hd; simp [natDigitsAux] at hd
  | succ f ih =>
    intro n d hd
    by_cases h0 : n = 0
    · simp [natDigitsAux, h0] at hd
    · simp only [natDigitsAux, if_neg h0, List.mem_cons] at hd
      rcases hd with h | h
      · subst h; exact Nat.mod_lt _ (by norm_num)
      · exact ih _ d h

theorem digitsVal_rev : ∀ (f n : Nat), n < f → ∀ acc : Nat,
    ((natDigitsAux f n).reverse).foldl (fun a d => 10 * a + d) acc =
      acc * 10 ^ (natDigitsAux f n).length + n := by
  intro f
  induction f with
  | zero => intro n h; exact absurd h (by omega)
  | succ f ih =>
    intro n h acc
    by_cases h0 : n = 0
    · subst h0; simp [natDigitsAux]
    · simp only [natDigitsAux, if_neg h0]
      rw [List.reverse_cons, List.foldl_append]
      rw [ih (n / 10) (by omega) acc]
      simp only [List.foldl_cons, List.foldl_nil, List.length_cons]
      have hdm := Nat.div_add_mod n 10
      rw [pow_succ]
      ring_nf
      omega

theorem natChars_ne_nil (n : Nat) : natChars n ≠ [] := by
  by_cases h0 : n = 0
  · subst h0; simp [natChars]
  · simp only [natChars, if_pos (Nat.pos_of_ne_zero h0)]
    simp [natDigitsAux, h0]

theorem natChars_digits (n : Nat) : ∀ c ∈ natChars n, c.isDigit = true := by
  by_cases h0 : n = 0
  · subst h0
    intro c hc
    simp [natChars] at hc
    subst hc
    rfl
  · intro c hc
    simp only [natChars, if_pos (Nat.pos_of_ne_zero h0), List.mem_reverse,
      List.mem_map] at hc
    obtain ⟨d, hd, hdc⟩ := hc
    subst hdc
    have hlt : d < 10 := natDigitsAux_lt10 _ _ d hd
    interval_cases d <;> rfl

theorem digitChar10_val (d : Nat) (h : d < 10) : (digitChar10 d).toNat - 48 = d := by
  interval_cases d <;> rfl

theorem digitRun_append : ∀ (ds rest : List Char), (∀ c ∈ ds, c.isDigit = true) →
    goodTail rest →
    digitRun (ds ++ rest) = (ds.map (fun c => c.toNat - 48), rest) := by
  intro ds
  induction ds with
  | nil =>
    intro rest hds hrest
    cases rest with
    | nil => rfl
    | cons c l =>
      obtain ⟨hd, -, -, -⟩ := hrest
      simp [digitRun, hd]
  | cons d ds ih =>
    intro rest hds hrest
    have hd : d.isDigit = true := hds d (List.mem_cons_self _ _)
    simp [digitRun, hd, ih rest (fun c hc => hds c (List.mem_cons_of_mem _ hc)) hrest]

theorem natChars_value (n : Nat) :
    digitsVal ((natChars n).map (fun c => c.toNat - 48)) = n := by
  by_cases h0 : n = 0
  · subst h0; rfl
  · simp only [natChars, if_pos (Nat.pos_of_ne_zero h0)]
    rw [List.map_reverse, List.map_map]
    have hmap : (natDigitsAux (n + 1) n).map ((fun c => c.toNat - 48) ∘ digitChar10) =
        natDigitsAux (n + 1) n := by
      have hid : ∀ d ∈ natDigitsAux (n + 1) n,
          ((fun c => c.toNat - 48) ∘ digitChar10) d = id d :=
        fun d hd => digitChar10_val d (natDigitsAux_lt10 _ _ d hd)
      rw [List.map_congr_left hid, List.map_id]
    rw [hmap]
    have hfold := digitsVal_rev (n + 1) n (by omega) 0
    simpa [digitsVal] using hfold

theorem parseNat_natChars (n : Nat) (rest : List Char) (h : goodTail rest) :
    parseNat (natChars n ++ rest) = some (n, rest) := by
  unfold parseNat
  rw [digitRun_append (natChars n) rest (natChars_digits n) h]
  have hne : ((natChars n).map (fun c => c.toNat - 48)).isEmpty = false := by
    rcases hl : natChars n with _ | ⟨c, l⟩
    · exact absurd hl (natChars_ne_nil n)
    · rfl
  cases rest with
  | nil => simp [hne, natChars_value]
  | cons c l =>
    obtain ⟨-, h2, h3, h4⟩ := h
    have hnot : ¬(c = '.' ∨ c = 'e' ∨ c = 'E') := by tauto
    simp [hne, natChars_value, hnot]

end FireFoxy

namespace FireFoxy

/-! ## Head and size lemmas for the round-trip induction -/

theorem sizeJ_pos (v : JsVal) : 1 ≤ sizeJ v := by
  cases v <;> simp [sizeJ]

theorem mk_data (k : String) : String.mk k.data = k := rfl

theorem digit_not_ws {c : Char} (h : c.isDigit = true) :
    ¬(c = ' ' ∨ c = '\n' ∨ c = '\t' ∨ c = '\r') := by
  rintro (rfl | rfl | rfl | rfl) <;> simp at h

theorem digit_not_lead {c : Char} (h : c.isDigit = true) :
    c ≠ '"' ∧ c ≠ '\x7b' ∧ c ≠ '[' ∧ c ≠ 't' ∧ c ≠ 'f' ∧ c ≠ 'n' ∧ c ≠ '-' ∧
      c ≠ ']' ∧ c ≠ '\x7d' := by
  refine ⟨?_, ?_, ?_, ?_, ?_, ?_, ?_, ?_, ?_⟩ <;> (rintro rfl; simp at h)

/-- The first character of any printed value: it exists, is no whitespace,
and is no closing bracket. -/
theorem jstr_head (ind : Nat) (v : JsVal) : ∃ c l, jstr ind v = c :: l ∧
    ¬(c = ' ' ∨ c = '\n' ∨ c = '\t' ∨ c = '\r') ∧ c ≠ ']' ∧ c ≠ '\x7d' := by
  cases v with
  | null => refine ⟨'n', _, rfl, ?_, ?_, ?_⟩ <;> decide
  | nan => refine ⟨'n', _, rfl, ?_, ?_, ?_⟩ <;> decide
  | bool b =>
    cases b
    · refine ⟨'f', _, rfl, ?_, ?_, ?_⟩ <;> decide
    · refine ⟨'t', _, rfl, ?_, ?_, ?_⟩ <;> decide
  | num n =>
    by_cases hneg : n < 0
    · refine ⟨'-', natChars n.natAbs, ?_, by decide, by decide, by decide⟩
      simp [jstr, intChars, hneg]
    · rcases hl : natChars n.toNat with _ | ⟨c, l⟩
      · exact absurd hl (natChars_ne_nil n.toNat)
      · have hcd : c.isDigit = true := by
          apply natChars_digits n.toNat
          rw [hl]
          exact List.mem_cons_self _ _
        obtain ⟨-, -, -, -, -, -, -, hrb, hbr⟩ := digit_not_lead hcd
        refine ⟨c, l, ?_, digit_not_ws hcd, hrb, hbr⟩
        simp [jstr, intChars, hneg, hl]
  | str s => refine ⟨'"', _, rfl, ?_, ?_, ?_⟩ <;> decide
  | arr xs =>
    cases xs
    · refine ⟨'[', _, rfl, ?_, ?_, ?_⟩ <;> decide
    · refine ⟨'[', _, rfl, ?_, ?_, ?_⟩ <;> decide
  | obj kvs =>
    cases kvs
    · refine ⟨'\x7b', _, rfl, ?_, ?_, ?_⟩ <;> decide
    · refine ⟨'\x7b', _, rfl, ?_, ?_, ?_⟩ <;> decide

theorem goodTail_comma (l : List Char) : goodTail (',' :: l) :=
  ⟨by decide, by decide, by decide, by decide⟩

theorem goodTail_nl (l : List Char) : goodTail ('\n' :: l) :=
  ⟨by decide, by decide, by decide, by decide⟩

/-- The continuation after an element of a printed list starts with a comma
or the closing line break. -/
theorem goodTail_elems (ind : Nat) (xs : List JsVal) (l : List Char) :
    goodTail (jstrElems ind xs ++ '\n' :: l) := by
  cases xs with
  | nil => exact goodTail_nl l
  | cons x xs => exact goodTail_comma _

theorem goodTail_members (ind : Nat) (kvs : List (String × JsVal)) (l : List Char) :
    goodTail (jstrMembers ind kvs ++ '\n' :: l) := by
  cases kvs with
  | nil => exact goodTail_nl l
  | cons kv kvs => exact goodTail_comma _

end FireFoxy

namespace FireFoxy

theorem wsOnly_nl_indent (n : Nat) : wsOnly ('\n' :: indentChars n) := by
  intro cc hcc
  rcases List.mem_cons.mp hcc with h | h
  · subst h; right; left; rfl
  · exact Or.inl (List.eq_of_mem_replicate h)

/-- The mutual printer-parser inversion: with enough fuel, parsing the
printed form of a NaN-free value (or of the element and member tails of a
non-empty container) consumes exactly the printed text. -/
theorem parse_jstr_master : ∀ fuel : Nat,
    (∀ (v : JsVal) (ind : Nat) (rest : List Char), noNaN v = true → sizeJ v < fuel →
      goodTail rest → parseVal fuel (jstr ind v ++ rest) = some (v, rest)) ∧
    (∀ (x : JsVal) (xs : List JsVal) (ind ind2 : Nat) (rest : List Char) (acc : List JsVal),
      noNaN x = true → noNaNList xs = true → 1 + sizeJ x + sizeJList xs < fuel →
      goodTail rest →
      parseElems fuel
        (jstr ind x ++ (jstrElems ind xs ++ '\n' :: (indentChars ind2 ++ ']' :: rest))) acc =
        some (.arr (acc ++ x :: xs), rest)) ∧
    (∀ (k : String) (v : JsVal) (kvs : List (String × JsVal)) (ind ind2 : Nat)
        (rest : List Char) (acc : List (String × JsVal)),
      noNaN v = true → noNaNMembers kvs = true → 1 + sizeJ v + sizeJMembers kvs < fuel →
      goodTail rest →
      parseMembers fuel
        (jstrMember ind (k, v) ++
          (jstrMembers ind kvs ++ '\n' :: (indentChars ind2 ++ '\x7d' :: rest))) acc =
        some (.obj (acc ++ (k, v) :: kvs), rest)) := by
  intro fuel
  induction fuel with
  | zero =>
    refine ⟨?_, ?_, ?_⟩
    · intro v ind rest _ hs _
      exact absurd hs (by have := sizeJ_pos v; omega)
    · intro x xs ind ind2 rest acc _ _ hs _
      exact absurd hs (by omega)
    · intro k v kvs ind ind2 rest acc _ _ hs _
      exact absurd hs (by omega)
  | succ f ih =>
    obtain ⟨ihP, ihQ, ihR⟩ := ih
    refine ⟨?_, ?_, ?_⟩
    · intro v ind rest hn hs ht
      cases v with
      | nan => simp [noNaN] at hn
      | null =>
        have hin : jstr ind JsVal.null ++ rest = 'n' :: 'u' :: 'l' :: 'l' :: rest := rfl
        rw [hin]
        unfold parseVal
        rw [skipWs_cons_of_not (by decide)]
        simp
      | bool b =>
        cases b with
        | true =>
          have hin : jstr ind (JsVal.bool true) ++ rest = 't' :: 'r' :: 'u' :: 'e' :: rest := rfl
          rw [hin]
          unfold parseVal
          rw [skipWs_cons_of_not (by decide)]
          simp
        | false =>
          have hin : jstr ind (JsVal.bool false) ++ rest =
              'f' :: 'a' :: 'l' :: 's' :: 'e' :: rest := rfl
          rw [hin]
          unfold parseVal
          rw [skipWs_cons_of_not (by decide)]
          simp
      | num n =>
        by_cases hneg : n < 0
        · have hin : jstr ind (JsVal.num n) ++ rest = '-' :: (natChars n.natAbs ++ rest) := by
            simp [jstr, intChars, hneg]
          rw [hin]
          unfold parseVal
          rw [skipWs_cons_of_not (by decide)]
          have hval : (-(↑(n.natAbs)) : Int) = n := by omega
          have hval2 : -(|n|) = n := by
            rw [abs_of_nonpos (show n ≤ 0 by omega)]
            omega
          simp [parseNat_natChars n.natAbs rest ht, hval, hval2]
        · rcases hl : natChars n.toNat with _ | ⟨c, l⟩
          · exact absurd hl (natChars_ne_nil n.toNat)
          · have hcd : c.isDigit = true := by
              apply natChars_digits n.toNat
              rw [hl]
              exact List.mem_cons_self _ _
            obtain ⟨hq, hbrace, hbrk, htc, hfc, hnc, hmc, -, -⟩ := digit_not_lead hcd
            have hin : jstr ind (JsVal.num n) ++ rest = c :: (l ++ rest) := by
              simp [jstr, intChars, hneg, hl]
            rw [hin]
            unfold parseVal
            rw [skipWs_cons_of_not (digit_not_ws hcd)]
            have hpn : parseNat (c :: (l ++ rest)) = some (n.toNat, rest) := by
              have hre : c :: (l ++ rest) = natChars n.toNat ++ rest := by
                rw [hl]
                rfl
              rw [hre]
              exact parseNat_natChars n.toNat rest ht
            have hval : ((n.toNat : Int)) = n := Int.toNat_of_nonneg (by omega)
            simp [hq, hbrace, hbrk, htc, hfc, hnc, hmc, hcd, hpn, hval]
      | str s =>
        have hin : jstr ind (JsVal.str s) ++ rest = '"' :: (escapeList s ++ '"' :: rest) := by
          simp [jstr, quoteChars]
        rw [hin]
        unfold parseVal
        rw [skipWs_cons_of_not (by decide)]
        simp [parseStringBody_escape]
      | arr xs =>
        cases xs with
        | nil =>
          have hin : jstr ind (JsVal.arr []) ++ rest = '[' :: ']' :: rest := rfl
          rw [hin]
          unfold parseVal
          rw [skipWs_cons_of_not (by decide)]
          have hsk : skipWs (']' :: rest) = ']' :: rest := skipWs_cons_of_not (by decide)
          simp [hsk]
        | cons x xs =>
          obtain ⟨hc, hl, hjx, hnws, hnrb, hnbr⟩ := jstr_head (ind + 1) x
          have hin : jstr ind (JsVal.arr (x :: xs)) ++ rest =
              '[' :: (('\n' :: indentChars (ind + 1)) ++
                (jstr (ind + 1) x ++ (jstrElems (ind + 1) xs ++
                  '\n' :: (indentChars ind ++ ']' :: rest)))) := by
            simp [jstr, List.append_assoc, List.cons_append, List.singleton_append]
          rw [hin]
          unfold parseVal
          rw [skipWs_cons_of_not (by decide)]
          dsimp only
          rw [if_neg (show ¬('[' : Char) = '"' from by decide)]
          rw [if_neg (show ¬('[' : Char) = '\x7b' from by decide)]
          rw [if_pos (show ('[' : Char) = '[' from rfl)]
          have hskip : skipWs (('\n' :: indentChars (ind + 1)) ++
              (jstr (ind + 1) x ++ (jstrElems (ind + 1) xs ++
                '\n' :: (indentChars ind ++ ']' :: rest)))) =
              jstr (ind + 1) x ++ (jstrElems (ind + 1) xs ++
                '\n' :: (indentChars ind ++ ']' :: rest)) := by
            rw [skipWs_append_wsOnly _ (wsOnly_nl_indent (ind + 1))]
            rw [hjx, List.cons_append, skipWs_cons_of_not hnws, ← List.cons_append, ← hjx]
          have hnn : noNaN x = true ∧ noNaNList xs = true := by
            have hx : noNaN (JsVal.arr (x :: xs)) = true := hn
            simpa [noNaN, noNaNList, Bool.and_eq_true] using hx
          have hsz : 1 + sizeJ x + sizeJList xs < f := by
            have hx : sizeJ (JsVal.arr (x :: xs)) < f + 1 := hs
            simp [sizeJ, sizeJList] at hx
            omega
          rw [hskip, hjx, List.cons_append]
          dsimp only
          rw [if_neg hnrb]
          rw [← List.cons_append, ← hjx]
          rw [parseElems_wsPre f (wsOnly_nl_indent (ind + 1)) _ []]
          rw [ihQ x xs (ind + 1) ind rest [] hnn.1 hnn.2 hsz ht]
          simp
      | obj kvs =>
        cases kvs with
        | nil =>
          have hin : jstr ind (JsVal.obj []) ++ rest = '\x7b' :: '\x7d' :: rest := rfl
          rw [hin]
          unfold parseVal
          rw [skipWs_cons_of_not (by decide)]
          have hsk : skipWs ('\x7d' :: rest) = '\x7d' :: rest := skipWs_cons_of_not (by decide)
          simp [hsk]
        | cons kv kvs =>
          obtain ⟨k, v⟩ := kv
          have hin : jstr ind (JsVal.obj ((k, v) :: kvs)) ++ rest =
              '\x7b' :: (('\n' :: indentChars (ind + 1)) ++
                (jstrMember (ind + 1) (k, v) ++ (jstrMembers (ind + 1) kvs ++
                  '\n' :: (indentChars ind ++ '\x7d' :: rest)))) := by
            simp [jstr, List.append_assoc, List.cons_append, List.singleton_append]
          rw [hin]
          unfold parseVal
          rw [skipWs_cons_of_not (by decide)]
          dsimp only
          rw [if_neg (show ¬('\x7b' : Char) = '"' from by decide)]
          rw [if_pos (show ('\x7b' : Char) = '\x7b' from rfl)]
          have hmemhead : ∃ ml, jstrMember (ind + 1) (k, v) = '"' :: ml := by
            refine ⟨escapeList k.data ++ ['"'] ++ ':' :: ' ' :: jstr (ind + 1) v, ?_⟩
            simp [jstrMember, quoteChars, List.append_assoc]
          obtain ⟨ml, hml⟩ := hmemhead
          have hskip : skipWs (('\n' :: indentChars (ind + 1)) ++
              (jstrMember (ind + 1) (k, v) ++ (jstrMembers (ind + 1) kvs ++
                '\n' :: (indentChars ind ++ '\x7d' :: rest)))) =
              jstrMember (ind + 1) (k, v) ++ (jstrMembers (ind + 1) kvs ++
                '\n' :: (indentChars ind ++ '\x7d' :: rest)) := by
            rw [skipWs_append_wsOnly _ (wsOnly_nl_indent (ind + 1))]
            rw [hml, List.cons_append, skipWs_cons_of_not (by decide), ← List.cons_append, ← hml]
          have hnn : noNaN v = true ∧ noNaNMembers kvs = true := by
            have hx : noNaN (JsVal.obj ((k, v) :: kvs)) = true := hn
            simpa [noNaN, noNaNMembers, Bool.and_eq_true] using hx
          have hsz : 1 + sizeJ v + sizeJMembers kvs < f := by
            have hx : sizeJ (JsVal.obj ((k, v) :: kvs)) < f + 1 := hs
            simp [sizeJ, sizeJMembers] at hx
            omega
          rw [hskip, hml, List.cons_append]
          dsimp only
          rw [if_neg (by decide : ¬('"' : Char) = '\x7d')]
          rw [← List.cons_append, ← hml]
          rw [parseMembers_wsPre f (wsOnly_nl_indent (ind + 1)) _ []]
          rw [ihR k v kvs (ind + 1) ind rest [] hnn.1 hnn.2 hsz ht]
          simp
    · intro x xs ind ind2 rest acc hnx hnxs hsz ht
      show parseElems (f + 1) _ acc = _
      unfold parseElems
      have hpv : parseVal f
          (jstr ind x ++ (jstrElems ind xs ++ '\n' :: (indentChars ind2 ++ ']' :: rest))) =
          some (x, jstrElems ind xs ++ '\n' :: (indentChars ind2 ++ ']' :: rest)) := by
        apply ihP x ind _ hnx (by have := sizeJ_pos x; omega)
        exact goodTail_elems ind xs _
      rw [hpv]
      cases xs with
      | nil =>
        have hsk : skipWs (jstrElems ind ([] : List JsVal) ++
            '\n' :: (indentChars ind2 ++ ']' :: rest)) = ']' :: rest := by
          show skipWs ([] ++ '\n' :: (indentChars ind2 ++ ']' :: rest)) = ']' :: rest
          rw [List.nil_append, skipWs_cons_of_ws (by right; left; rfl)]
          rw [skipWs_append_wsOnly _ (wsOnly_indent ind2)]
          exact skipWs_cons_of_not (by decide)
        simp [hsk]
      | cons y ys =>
        have hY : jstrElems ind (y :: ys) ++ '\n' :: (indentChars ind2 ++ ']' :: rest) =
            ',' :: '\n' :: (indentChars ind ++
              (jstr ind y ++ (jstrElems ind ys ++ '\n' :: (indentChars ind2 ++ ']' :: rest)))) := by
          simp [jstrElems, List.append_assoc, List.cons_append]
        rw [hY]
        have hnn : noNaN y = true ∧ noNaNList ys = true := by
          simpa [noNaNList, Bool.and_eq_true] using hnxs
        have hsz2 : 1 + sizeJ y + sizeJList ys < f := by
          simp [sizeJList] at hsz
          have := sizeJ_pos x
          omega
        have hsw : skipWs (',' :: '\n' :: (indentChars ind ++
            (jstr ind y ++ (jstrElems ind ys ++ '\n' :: (indentChars ind2 ++ ']' :: rest))))) =
            ',' :: '\n' :: (indentChars ind ++
            (jstr ind y ++ (jstrElems ind ys ++ '\n' :: (indentChars ind2 ++ ']' :: rest)))) :=
          skipWs_cons_of_not (by decide)
        have hstep : parseElems f ('\n' :: (indentChars ind ++
            (jstr ind y ++ (jstrElems ind ys ++ '\n' :: (indentChars ind2 ++ ']' :: rest)))))
            (acc ++ [x]) = some (.arr ((acc ++ [x]) ++ y :: ys), rest) := by
          rw [← List.cons_append]
          rw [parseElems_wsPre f (wsOnly_nl_indent ind) _ (acc ++ [x])]
          exact ihQ y ys ind ind2 rest (acc ++ [x]) hnn.1 hnn.2 hsz2 ht
        simp [hsw, hstep]
    · intro k v kvs ind ind2 rest acc hnv hnkvs hsz ht
      show parseMembers (f + 1) _ acc = _
      unfold parseMembers
      have hin : jstrMember ind (k, v) ++
          (jstrMembers ind kvs ++ '\n' :: (indentChars ind2 ++ '\x7d' :: rest)) =
          '"' :: (escapeList k.data ++ '"' ::
            (':' :: ' ' :: (jstr ind v ++
              (jstrMembers ind kvs ++ '\n' :: (indentChars ind2 ++ '\x7d' :: rest))))) := by
        simp [jstrMember, quoteChars, List.append_assoc, List.cons_append]
      rw [hin]
      rw [skipWs_cons_of_not (by decide)]
      have hpsb := parseStringBody_escape k.data
        (':' :: ' ' :: (jstr ind v ++
          (jstrMembers ind kvs ++ '\n' :: (indentChars ind2 ++ '\x7d' :: rest))))
      have hswc : skipWs (':' :: ' ' :: (jstr ind v ++
          (jstrMembers ind kvs ++ '\n' :: (indentChars ind2 ++ '\x7d' :: rest)))) =
          ':' :: ' ' :: (jstr ind v ++
          (jstrMembers ind kvs ++ '\n' :: (indentChars ind2 ++ '\x7d' :: rest))) :=
        skipWs_cons_of_not (by decide)
      have hpv : parseVal f
          (' ' :: (jstr ind v ++
            (jstrMembers ind kvs ++ '\n' :: (indentChars ind2 ++ '\x7d' :: rest)))) =
          some (v, jstrMembers ind kvs ++ '\n' :: (indentChars ind2 ++ '\x7d' :: rest)) := by
        have hws : wsOnly [' '] := by
          intro c hc
          rcases List.mem_singleton.mp hc with rfl
          left; rfl
        have := parseVal_wsPre f hws
          (jstr ind v ++ (jstrMembers ind kvs ++ '\n' :: (indentChars ind2 ++ '\x7d' :: rest)))
        rw [show (' ' :: (jstr ind v ++
            (jstrMembers ind kvs ++ '\n' :: (indentChars ind2 ++ '\x7d' :: rest)))) =
            [' '] ++ (jstr ind v ++
            (jstrMembers ind kvs ++ '\n' :: (indentChars ind2 ++ '\x7d' :: rest))) from rfl]
        rw [this]
        apply ihP v ind _ hnv (by have := sizeJ_pos v; omega)
        exact goodTail_members ind kvs _
      cases kvs with
      | nil =>
        have hsk : skipWs (jstrMembers ind ([] : List (String × JsVal)) ++
            '\n' :: (indentChars ind2 ++ '\x7d' :: rest)) = '\x7d' :: rest := by
          show skipWs ([] ++ '\n' :: (indentChars ind2 ++ '\x7d' :: rest)) = '\x7d' :: rest
          rw [List.nil_append, skipWs_cons_of_ws (by right; left; rfl)]
          rw [skipWs_append_wsOnly _ (wsOnly_indent ind2)]
          exact skipWs_cons_of_not (by decide)
        simp [hpsb, hswc, hpv, hsk, mk_data]
      | cons kv2 kvs2 =>
        obtain ⟨k2, v2⟩ := kv2
        have hY : jstrMembers ind ((k2, v2) :: kvs2) ++
            '\n' :: (indentChars ind2 ++ '\x7d' :: rest) =
            ',' :: '\n' :: (indentChars ind ++
              (jstrMember ind (k2, v2) ++ (jstrMembers ind kvs2 ++
                '\n' :: (indentChars ind2 ++ '\x7d' :: rest)))) := by
          simp [jstrMembers, List.append_assoc, List.cons_append]
        have hnn : noNaN v2 = true ∧ noNaNMembers kvs2 = true := by
          simpa [noNaNMembers, Bool.and_eq_true] using hnkvs
        have hsz2 : 1 + sizeJ v2 + sizeJMembers kvs2 < f := by
          simp [sizeJMembers] at hsz
          have := sizeJ_pos v
          omega
        have hsw : skipWs (',' :: '\n' :: (indentChars ind ++
            (jstrMember ind (k2, v2) ++ (jstrMembers ind kvs2 ++
              '\n' :: (indentChars ind2 ++ '\x7d' :: rest))))) =
            ',' :: '\n' :: (indentChars ind ++
            (jstrMember ind (k2, v2) ++ (jstrMembers ind kvs2 ++
              '\n' :: (indentChars ind2 ++ '\x7d' :: rest)))) :=
          skipWs_cons_of_not (by decide)
        have hstep : parseMembers f ('\n' :: (indentChars ind ++
            (jstrMember ind (k2, v2) ++ (jstrMembers ind kvs2 ++
              '\n' :: (indentChars ind2 ++ '\x7d' :: rest)))))
            (acc ++ [(String.mk k.data, v)]) =
            some (.obj ((acc ++ [(String.mk k.data, v)]) ++ (k2, v2) :: kvs2), rest) := by
          rw [← List.cons_append]
          rw [parseMembers_wsPre f (wsOnly_nl_indent ind) _ (acc ++ [(String.mk k.data, v)])]
          exact ihR k2 v2 kvs2 ind ind2 rest (acc ++ [(String.mk k.data, v)])
            hnn.1 hnn.2 hsz2 ht
        rw [hY] at hpsb hswc hpv
        rw [hY]
        simp [hpsb, hswc, hpv, hsw, hstep, mk_data]

end FireFoxy

namespace FireFoxy

/-! ## Enough fuel: the printed text is at least as long as the node count -/

theorem natChars_length_pos (m : Nat) : 1 ≤ (natChars m).length := by
  rcases hl : natChars m with _ | ⟨c, l⟩
  · exact absurd hl (natChars_ne_nil m)
  · simp

theorem jstrMember_length (ind : Nat) (k : String) (v : JsVal) :
    (jstrMember ind (k, v)).length =
      (escapeList k.data).length + 4 + (jstr ind v).length := by
  simp [jstrMember, quoteChars, List.length_append]
  omega

theorem sizeJ_le_jstr : ∀ n : Nat,
    (∀ (v : JsVal) (ind : Nat), sizeJ v ≤ n → sizeJ v ≤ (jstr ind v).length) ∧
    (∀ (x : JsVal) (xs : List JsVal) (ind : Nat), 1 + sizeJ x + sizeJList xs ≤ n →
      1 + sizeJ x + sizeJList xs ≤ 1 + (jstr ind x).length + (jstrElems ind xs).length) ∧
    (∀ (k : String) (v : JsVal) (kvs : List (String × JsVal)) (ind : Nat),
      1 + sizeJ v + sizeJMembers kvs ≤ n →
      1 + sizeJ v + sizeJMembers kvs ≤
        1 + (jstrMember ind (k, v)).length + (jstrMembers ind kvs).length) := by
  intro n
  induction n with
  | zero =>
    refine ⟨?_, ?_, ?_⟩
    · intro v ind hs; exact absurd hs (by have := sizeJ_pos v; omega)
    · intro x xs ind hs; exact absurd hs (by omega)
    · intro k v kvs ind hs; exact absurd hs (by omega)
  | succ n ih =>
    obtain ⟨ihP, ihQ, ihR⟩ := ih
    refine ⟨?_, ?_, ?_⟩
    · intro v ind hs
      cases v with
      | null => simp [sizeJ, jstr]
      | nan => simp [sizeJ, jstr]
      | bool b => cases b <;> simp [sizeJ, jstr]
      | num m =>
        by_cases hneg : m < 0
        · have h1 := natChars_length_pos m.natAbs
          simp [sizeJ, jstr, intChars, hneg]
          try omega
        · have h1 := natChars_length_pos m.toNat
          simp [sizeJ, jstr, intChars, hneg]
          try omega
      | str s => simp [sizeJ, jstr, quoteChars]
      | arr xs =>
        cases xs with
        | nil => simp [sizeJ, sizeJList, jstr]
        | cons x xs =>
          have hx : sizeJ (JsVal.arr (x :: xs)) ≤ n + 1 := hs
          simp only [sizeJ, sizeJList] at hx
          have hq := ihQ x xs (ind + 1) (by omega)
          simp only [sizeJ, sizeJList, jstr]
          simp [List.length_append]
          omega
      | obj kvs =>
        cases kvs with
        | nil => simp [sizeJ, sizeJMembers, jstr]
        | cons kv kvs =>
          obtain ⟨k, v⟩ := kv
          have hx : sizeJ (JsVal.obj ((k, v) :: kvs)) ≤ n + 1 := hs
          simp only [sizeJ, sizeJMembers] at hx
          have hr := ihR k v kvs (ind + 1) (by omega)
          simp only [sizeJ, sizeJMembers, jstr]
          simp [List.length_append]
          omega
    · intro x xs ind hs
      cases xs with
      | nil =>
        have hp := ihP x ind (by simp [sizeJList] at hs; omega)
        simp [sizeJList, jstrElems]
        omega
      | cons y ys =>
        have hp : sizeJ x ≤ n := by
          have := sizeJ_pos y
          simp [sizeJList] at hs
          omega
        have hq : 1 + sizeJ y + sizeJList ys ≤ n := by
          have := sizeJ_pos x
          simp [sizeJList] at hs
          omega
        have h1 := ihP x ind hp
        have h2 := ihQ y ys ind hq
        simp only [sizeJList, jstrElems]
        simp [List.length_append]
        omega
    · intro k v kvs ind hs
      cases kvs with
      | nil =>
        have hp := ihP v ind (by simp [sizeJMembers] at hs; omega)
        rw [jstrMember_length]
        simp [sizeJMembers, jstrMembers]
        omega
      | cons kv2 kvs2 =>
        obtain ⟨k2, v2⟩ := kv2
        have hp : sizeJ v ≤ n := by
          have := sizeJ_pos v2
          simp [sizeJMembers] at hs
          omega
        have hq : 1 + sizeJ v2 + sizeJMembers kvs2 ≤ n := by
          have := sizeJ_pos v
          simp [sizeJMembers] at hs
          omega
        have h1 := ihP v ind hp
        have h2 := ihR k2 v2 kvs2 ind hq
        rw [jstrMember_length]
        simp only [sizeJMembers, jstrMembers]
        simp [List.length_append]
        omega

/-- Top-level round trip: parsing the pretty-printed form of any NaN-free
value gives the value back. -/
theorem jsonParse_stringify (v : JsVal) (h : noNaN v = true) :
    jsonParse (jsonStringify v) = some v := by
  unfold jsonParse jsonStringify
  have hdata : (String.mk (jstr 0 v)).data = jstr 0 v := rfl
  rw [hdata]
  have hlen : sizeJ v < (jstr 0 v).length + 1 := by
    have := (sizeJ_le_jstr (sizeJ v)).1 v 0 (le_refl _)
    omega
  have hmain := (parse_jstr_master ((jstr 0 v).length + 1)).1 v 0 [] h hlen trivial
  rw [List.append_nil] at hmain
  rw [hmain]
  simp [skipWs]

/-! ## The generated document is NaN-free when the port parses -/

theorem noNaNList_map_str : ∀ l : List String, noNaNList (l.map strJs) = true := by
  intro l
  induction l with
  | nil => rfl
  | cons s t ih => simp [noNaNList, strJs, noNaN, ih]

theorem noNaN_recordToJs (r : ProxyRecord) (h : (r.port).isSome) :
    noNaN (recordToJs r) = true := by
  obtain ⟨p, hp⟩ := Option.isSome_iff_exists.mp h
  simp [recordToJs, noNaN, noNaNMembers, optIntToJs, strJs, hp, noNaNList_map_str]

theorem noNaNList_map_rec : ∀ rs : List ProxyRecord, (∀ r ∈ rs, (r.port).isSome) →
    noNaNList (rs.map recordToJs) = true := by
  intro rs
  induction rs with
  | nil => intro _; rfl
  | cons r t ih =>
    intro h
    simp [noNaNList, noNaN_recordToJs r (h r (List.mem_cons_self _ _)),
      ih (fun x hx => h x (List.mem_cons_of_mem _ hx))]

theorem noNaNMembers_map_str : ∀ l : List (String × String),
    noNaNMembers (l.map (fun kv => (kv.1, strJs kv.2))) = true := by
  intro l
  induction l with
  | nil => rfl
  | cons kv t ih =>
    simp [noNaNMembers, strJs, noNaN]
    exact ih

theorem noNaN_configToJs (f : FullConfig) (h : ∀ r ∈ f.data, (r.port).isSome) :
    noNaN (configToJs f) = true := by
  simp [configToJs, commandsToJs, noNaN, noNaNMembers, strJs,
    noNaNMembers_map_str, noNaNList_map_rec f.data h]
  exact noNaNMembers_map_str f.container

theorem buildList_mem_port : ∀ (n : Nat) (g : FoxyProxyGenerator) (i : Nat)
    (r : ProxyRecord), r ∈ buildList g i n → r.port = parseIntBase10 g.config.port := by
  intro n
  induction n with
  | zero => intro g i r hr; simp [buildList] at hr
  | succ n ih =>
    intro g i r hr
    simp only [buildList, List.mem_cons] at hr
    rcases hr with h | h
    · subst h; rfl
    · exact ih { g with rndPos := g.rndPos + 8 } (i + 1) r h

/-- **C7** (amended).  For every document a state with valid credentials
generates, provided the template port parses to an integer (the `port`
field is not `NaN`), `getConfigAsJson` returns exactly the pretty-printed
JSON of the document and parsing that text yields a structurally equal
value.  (With a non-numeric port the round trip fails: see the
counterexample, where `NaN` serializes as `null`.) -/
theorem claim_C7 (g : FoxyProxyGenerator) (doc : FullConfig)
    (gA : FoxyProxyGenerator) (hok : generateFullConfig g = .ok (doc, gA))
    (hport : (parseIntBase10 g.config.port).isSome) :
    getConfigAsJson g = .ok (jsonStringify (configToJs doc), gA) ∧
    jsonParse (jsonStringify (configToJs doc)) = some (configToJs doc) := by
  constructor
  · simp [getConfigAsJson, hok]
  · apply jsonParse_stringify
    apply noNaN_configToJs
    intro r hr
    obtain ⟨-, hdata⟩ := gfc_ok_inv hok
    rw [hdata] at hr
    rw [buildList_mem_port _ _ _ _ hr]
    exact hport

set_option maxRecDepth 100000 in
theorem claim_C7_witness :
    getConfigAsJson gExample = .ok (jsonStringify (configToJs docExample),
      { gExample with rndPos := gExample.rndPos + 8 * effectiveCount gExample.config.proxyCount }) ∧
    jsonParse (jsonStringify (configToJs docExample)) = some (configToJs docExample) :=
  claim_C7 gExample docExample
    { gExample with rndPos := gExample.rndPos + 8 * effectiveCount gExample.config.proxyCount }
    (generateFullConfig_eq gExample rfl) (by decide)

set_option maxRecDepth 100000 in
theorem claim_C7_counterexample :
    parseIntBase10 gBadPort.config.port = none ∧
    generateFullConfig gBadPort = .ok (docBadPort,
      { gBadPort with rndPos := gBadPort.rndPos + 8 * effectiveCount gBadPort.config.proxyCount }) ∧
    noNaN (configToJs docBadPort) = false ∧
    (jsonParse (jsonStringify (configToJs docBadPort))).map noNaN = some true ∧
    jsonParse (jsonStringify (configToJs docBadPort)) ≠ some (configToJs docBadPort) := by
  refine ⟨rfl, generateFullConfig_eq gBadPort rfl, rfl, rfl, ?_⟩
  intro hcontra
  have hx : (some true : Option Bool) = some false := by
    calc (some true : Option Bool)
        = (jsonParse (jsonStringify (configToJs docBadPort))).map noNaN := by rfl
      _ = (some (configToJs docBadPort)).map noNaN := by rw [hcontra]
      _ = some false := by rfl
  simp at hx

end FireFoxy
